import Mathlib

/-!
# Verification of the multi-field concurrent register (lab4)

Shallow embedding of the two near-duplicate C++ sources `lab4.cpp` and
`demo_lab4.cpp`:

* the `MultiField` store (integer fields guarded by per-field
  reader-writer locks) in namespaces `Lab4` and `Demo`;
* the lock-acquisition behaviour of `read` / `write` / `to_string`
  as explicit lock-action traces, and a multi-thread lock scheduler
  used to prove deadlock freedom;
* the workload loaders `load_ops` / `load_ops_from_file` over a
  token/line model of `std::ifstream` extraction;
* the per-thread executors `worker` / `execute_ops`.

Machine integers: C++ `int` is embedded as `Int` (no claim exercises
32-bit overflow), C++ `size_t` arguments as `Nat`; the implicit
`int → size_t` conversion at the one call site where it happens
(`worker`) is modelled explicitly modulo `2 ^ 64`.
-/

namespace Lab4

/-- `enum class OpType { READ, WRITE, STRING };` (lab4.cpp). -/
inductive OpType where
  | READ
  | WRITE
  | STRING
deriving DecidableEq, Repr

/-- `struct Op { OpType type; int idx; int value; };` (lab4.cpp). -/
structure Op where
  type : OpType
  idx : Int
  value : Int
deriving DecidableEq, Repr

/-- The value state of `class MultiField` (lab4.cpp): `std::vector<int> vals;`.
The lock array `locks` carries no value state; locking behaviour is modelled
separately as explicit lock-action traces (see namespace `Locks`). -/
structure MultiField where
  vals : List Int
deriving DecidableEq, Repr

/-- `explicit MultiField(size_t m) : vals(m, 0), locks(m) {}` -/
def MultiField.mk0 (m : Nat) : MultiField :=
  ⟨List.replicate m 0⟩

/-- `int read(size_t idx) const { if (idx >= vals.size()) return 0;
... return vals[idx]; }` -/
def MultiField.read (s : MultiField) (idx : Nat) : Int :=
  if s.vals.length ≤ idx then 0 else s.vals.getD idx 0

/-- `void write(size_t idx, int value) { if (idx >= vals.size()) return;
... vals[idx] = value; }` -/
def MultiField.write (s : MultiField) (idx : Nat) (value : Int) : MultiField :=
  if s.vals.length ≤ idx then s else ⟨s.vals.set idx value⟩

/-- The body of the formatting loop of `to_string`:
`for i: { if (i > 0) oss << ", "; oss << vals[i]; }`.  The `Bool`
component of the accumulator is the `i > 0` test (false exactly on the
first iteration). -/
def renderLoop (vs : List Int) : String :=
  (vs.foldl
    (fun (acc : String × Bool) v =>
      (acc.1 ++ (if acc.2 then ", " else "") ++ toString v, true))
    ("", false)).1

/-- `std::string to_string() const` of lab4.cpp: acquires all locks, then
`oss << "\x7b"; loop; oss << "\x7d";` — note lab4.cpp uses curly braces. -/
def MultiField.to_string (s : MultiField) : String :=
  "\x7b" ++ renderLoop s.vals ++ "\x7d"

end Lab4

namespace Demo

/-- `enum class OpType { READ, WRITE, STRING };` (demo_lab4.cpp). -/
inductive OpType where
  | READ
  | WRITE
  | STRING
deriving DecidableEq, Repr

/-- `struct Op { OpType type; size_t idx; int value; };` (demo_lab4.cpp);
`size_t` embedded as `Nat`. -/
structure Op where
  type : OpType
  idx : Nat
  value : Int
deriving DecidableEq, Repr

/-- The value state of `class MultiField` (demo_lab4.cpp). -/
structure MultiField where
  vals : List Int
deriving DecidableEq, Repr

/-- `MultiField(size_t m, int init_value = 0) : vals(m, init_value), locks(m)` -/
def MultiField.mk' (m : Nat) (init_value : Int := 0) : MultiField :=
  ⟨List.replicate m init_value⟩

/-- `int read(size_t idx) { if (idx >= vals.size()) return 0; ... return vals[idx]; }` -/
def MultiField.read (s : MultiField) (idx : Nat) : Int :=
  if s.vals.length ≤ idx then 0 else s.vals.getD idx 0

/-- `void write(size_t idx, int value)` of demo_lab4.cpp. -/
def MultiField.write (s : MultiField) (idx : Nat) (value : Int) : MultiField :=
  if s.vals.length ≤ idx then s else ⟨s.vals.set idx value⟩

/-- `std::string to_string() const` of demo_lab4.cpp: square brackets. -/
def MultiField.to_string (s : MultiField) : String :=
  "[" ++ Lab4.renderLoop s.vals ++ "]"

/-- `size_t size() const { return vals.size(); }` -/
def MultiField.size (s : MultiField) : Nat :=
  s.vals.length

end Demo

namespace Locks

/-! ## Lock-acquisition model

Both sources guard field `i` with `locks[i] : std::shared_mutex`.  The
lock behaviour of each `MultiField` member function is embedded as the
sequence of lock actions it performs, in program order.  Values are
irrelevant to locking, so operations are abstracted to `LOp`.

The C++ standard does not specify the order in which `std::vector`
destroys its elements; the model uses ascending order (as libstdc++
does).  No theorem below depends on the release order. -/

/-- `std::shared_lock` (reader) vs `std::unique_lock` (writer) mode. -/
inductive LMode where
  | shared
  | excl
deriving DecidableEq, Repr

/-- One lock-relevant action: acquire guard `i` in mode `m`, release
guard `i`, or touch field `i` (`rd`/`wr`) while holding its guard. -/
inductive LAct where
  | acq (i : Nat) (m : LMode)
  | rel (i : Nat)
  | rd (i : Nat)
  | wr (i : Nat)
deriving DecidableEq, Repr

/-- A store call, abstracted to what the lock discipline sees. -/
inductive LOp where
  | read (i : Nat)
  | write (i : Nat)
  | snap
deriving DecidableEq, Repr

/-- The lock-action trace of each `MultiField` member function on a
store of `M` fields:
* `read i`: bounds check first (no lock out of range), else
  `shared_lock(locks[i])`, read `vals[i]`, unlock on return;
* `write i`: bounds check first, else `unique_lock(locks[i])`, store,
  unlock;
* `to_string` (snapshot): `for (auto& mtx : locks) acquired.emplace_back(mtx)`
  — shared-acquire guards `0, 1, ..., M-1` in that order — then the
  formatting loop reads every field, then all locks are released. -/
def compile (M : Nat) : LOp → List LAct
  | .read i => if i < M then [.acq i .shared, .rd i, .rel i] else []
  | .write i => if i < M then [.acq i .excl, .wr i, .rel i] else []
  | .snap =>
      ((List.range M).map (fun i => .acq i .shared)) ++
      ((List.range M).map .rd) ++
      ((List.range M).map .rel)

/-- Release guard `i`: drop the first held entry for key `i`. -/
def removeKey (h : List (Nat × LMode)) (i : Nat) : List (Nat × LMode) :=
  h.eraseP (fun p => p.1 == i)

/-- Effect of one lock action on the list of currently held locks. -/
def heldStep (h : List (Nat × LMode)) : LAct → List (Nat × LMode)
  | .acq i m => h ++ [(i, m)]
  | .rel i => removeKey h i
  | .rd _ => h
  | .wr _ => h

/-- Locks held after executing a trace from held-set `h`. -/
def heldAfter (h : List (Nat × LMode)) (t : List LAct) : List (Nat × LMode) :=
  t.foldl heldStep h

@[simp] theorem heldAfter_nil (h : List (Nat × LMode)) : heldAfter h [] = h := rfl

@[simp] theorem heldAfter_cons (h : List (Nat × LMode)) (a : LAct) (t : List LAct) :
    heldAfter h (a :: t) = heldAfter (heldStep h a) t := rfl

theorem heldAfter_append (h : List (Nat × LMode)) (t u : List LAct) :
    heldAfter h (t ++ u) = heldAfter (heldAfter h t) u :=
  List.foldl_append ..

/-- Field reads do not change the held set. -/
theorem heldAfter_rds (h : List (Nat × LMode)) (l : List Nat) :
    heldAfter h (l.map .rd) = h := by
  induction l with
  | nil => rfl
  | cons x xs ih => simpa [heldStep] using ih

/-- Acquisitions append to the held set in acquisition order. -/
theorem heldAfter_acqs (h : List (Nat × LMode)) (l : List Nat) (m : LMode) :
    heldAfter h (l.map (fun i => .acq i m)) = h ++ l.map (fun i => (i, m)) := by
  induction l generalizing h with
  | nil => simp
  | cons x xs ih => simp [heldStep, ih]

/-- Releasing guards `k, k+1, ..., k+n-1` from a held set holding
exactly those guards empties it. -/
theorem heldAfter_rels (n k : Nat) (m : LMode) :
    heldAfter ((List.range' k n).map (fun i => (i, m))) ((List.range' k n).map .rel) = [] := by
  induction n generalizing k with
  | zero => rfl
  | succ n ih =>
      have : removeKey (((k, m)) :: (List.range' (k + 1) n).map (fun i => (i, m))) k =
          (List.range' (k + 1) n).map (fun i => (i, m)) := by
        simp [removeKey, List.eraseP_cons]
      simp only [List.range'_succ, List.map_cons, heldAfter_cons, heldStep, this]
      exact ih (k + 1)

/-- Projection to the acquisition events of a trace. -/
def acqOf : LAct → Option (Nat × LMode)
  | .acq i m => some (i, m)
  | _ => none

@[simp] theorem filterMap_acqOf_acqs (l : List Nat) (m : LMode) :
    (l.map (fun i => LAct.acq i m)).filterMap acqOf = l.map (fun i => (i, m)) := by
  induction l with
  | nil => rfl
  | cons x xs ih => simp [acqOf, ih]

@[simp] theorem filterMap_acqOf_rds (l : List Nat) :
    (l.map LAct.rd).filterMap acqOf = [] := by
  induction l with
  | nil => rfl
  | cons x xs ih => simp [acqOf, ih]

@[simp] theorem filterMap_acqOf_rels (l : List Nat) :
    (l.map LAct.rel).filterMap acqOf = [] := by
  induction l with
  | nil => rfl
  | cons x xs ih => simp [acqOf, ih]

/-! ### Multi-thread lock scheduler

One worker thread per operation stream, all sharing the store's guard
array.  A thread is its currently held locks, the remaining lock
actions of the store call it is inside (if any), and its remaining
stream.  A step picks any thread and lets it perform its next action;
an acquisition is enabled only if no *other* thread holds the guard in
a conflicting mode (`std::shared_mutex`: shared/shared compatible,
anything/exclusive conflicting).  Releases and field accesses are
always enabled, as is entering the next store call of the stream. -/

/-- One worker thread of `run_test` / `run_test_case`. -/
structure Thread where
  held : List (Nat × LMode)
  cur : List LAct
  rest : List LOp
deriving DecidableEq, Repr

/-- The threads launched by the driver: one per stream, holding
nothing, about to dispatch the stream's first operation. -/
def initThreads (streams : List (List LOp)) : List Thread :=
  streams.map (fun st => ⟨[], [], st⟩)

/-- This worker's stream is exhausted and its last store call returned. -/
def ThreadDone (θ : Thread) : Prop :=
  θ.cur = [] ∧ θ.rest = []

/-- All workers have finished (the driver's joins all return). -/
def AllDone (ts : List Thread) : Prop :=
  ∀ θ ∈ ts, ThreadDone θ

/-- Does thread `τ` hold guard `i` in a mode conflicting with a fresh
acquisition in mode `m`? -/
def blocksAcq (i : Nat) (m : LMode) (τ : Thread) : Bool :=
  match m with
  | .shared => τ.held.any (fun p => p.1 == i && p.2 == LMode.excl)
  | .excl => τ.held.any (fun p => p.1 == i)

/-- Guard `i` can be acquired in mode `m` given the other threads. -/
def canAcq (others : List Thread) (i : Nat) (m : LMode) : Bool :=
  others.all (fun τ => !(blocksAcq i m τ))

/-- The guard index a thread is about to acquire, if any. -/
def wantedOf (θ : Thread) : Option Nat :=
  match θ.cur with
  | .acq i _ :: _ => some i
  | _ => none

/-- Interleaving semantics: any one thread performs its next action. -/
inductive Step (M : Nat) : List Thread → List Thread → Prop where
  | start (l₁ l₂ : List Thread) (h : List (Nat × LMode)) (op : LOp) (r : List LOp) :
      Step M (l₁ ++ ⟨h, [], op :: r⟩ :: l₂) (l₁ ++ ⟨h, compile M op, r⟩ :: l₂)
  | acq (l₁ l₂ : List Thread) (h : List (Nat × LMode)) (i : Nat) (m : LMode)
      (c : List LAct) (r : List LOp) (hok : canAcq (l₁ ++ l₂) i m = true) :
      Step M (l₁ ++ ⟨h, .acq i m :: c, r⟩ :: l₂) (l₁ ++ ⟨h ++ [(i, m)], c, r⟩ :: l₂)
  | rel (l₁ l₂ : List Thread) (h : List (Nat × LMode)) (i : Nat)
      (c : List LAct) (r : List LOp) :
      Step M (l₁ ++ ⟨h, .rel i :: c, r⟩ :: l₂) (l₁ ++ ⟨removeKey h i, c, r⟩ :: l₂)
  | rd (l₁ l₂ : List Thread) (h : List (Nat × LMode)) (i : Nat)
      (c : List LAct) (r : List LOp) :
      Step M (l₁ ++ ⟨h, .rd i :: c, r⟩ :: l₂) (l₁ ++ ⟨h, c, r⟩ :: l₂)
  | wr (l₁ l₂ : List Thread) (h : List (Nat × LMode)) (i : Nat)
      (c : List LAct) (r : List LOp) :
      Step M (l₁ ++ ⟨h, .wr i :: c, r⟩ :: l₂) (l₁ ++ ⟨h, c, r⟩ :: l₂)

/-- Remaining work of one pending store call (dispatch plus its lock
actions). -/
def opCost (M : Nat) (op : LOp) : Nat := (compile M op).length + 1

/-- Remaining work of one thread. -/
def thMeasure (M : Nat) (θ : Thread) : Nat :=
  θ.cur.length + (θ.rest.map (opCost M)).sum

/-- Total remaining work of the system; strictly decreases at every
step, so every execution is finite. -/
def sysMeasure (M : Nat) (ts : List Thread) : Nat :=
  (ts.map (thMeasure M)).sum

/-- The lock-usage discipline a single thread obeys at every point
inside a store call: its remaining actions release everything it
holds, never acquire a guard at or below one it already holds, and end
with nothing held.  `Ok [] (compile M op)` holds for every store call,
and `Ok` is preserved by every step. -/
inductive Ok : List (Nat × LMode) → List LAct → Prop where
  | nil : Ok [] []
  | rd (h : List (Nat × LMode)) (c : List LAct) (i : Nat) :
      Ok h c → Ok h (.rd i :: c)
  | wr (h : List (Nat × LMode)) (c : List LAct) (i : Nat) :
      Ok h c → Ok h (.wr i :: c)
  | acq (h : List (Nat × LMode)) (c : List LAct) (i : Nat) (m : LMode) :
      (∀ p ∈ h, p.1 < i) → Ok (h ++ [(i, m)]) c → Ok h (.acq i m :: c)
  | rel (h : List (Nat × LMode)) (c : List LAct) (i : Nat) :
      Ok (removeKey h i) c → Ok h (.rel i :: c)

/-- System invariant: every thread obeys the lock discipline. -/
def Inv (ts : List Thread) : Prop :=
  ∀ θ ∈ ts, Ok θ.held θ.cur

end Locks

/-! ## Executor model

`worker` (lab4.cpp) and `execute_ops` (demo_lab4.cpp) loop over an op
vector and dispatch each op to the store.  They are embedded as
functions returning the final store state together with the list of
store calls made, in dispatch order; each recorded `Event` also carries
the value the call returned (the C++ discards it after the call). -/

/-- A store call made by an executor, with the returned value:
`read` returned `result`, `write` stored `v`, `snap` produced `s`. -/
inductive Event where
  | read (i : Nat) (result : Int)
  | write (i : Nat) (v : Int)
  | snap (s : String)
deriving DecidableEq, Repr

/-- The shape of a store call (the `Event` with returned values erased). -/
inductive Call where
  | read (i : Nat)
  | write (i : Nat) (v : Int)
  | snap
deriving DecidableEq, Repr

/-- Forget the returned value of an event. -/
def Event.call : Event → Call
  | .read i _ => .read i
  | .write i v => .write i v
  | .snap _ => .snap

namespace Lab4

/-- The implicit C++ `int → size_t` conversion at `data.read(op.idx)` /
`data.write(op.idx, ...)` in `worker` (lab4.cpp declares `Op::idx` as
`int`, `MultiField` takes `size_t`): reduction modulo `2 ^ 64`. -/
def usize (i : Int) : Nat := (i % (2 ^ 64 : Int)).toNat

/-- The store call a lab4 `Op` is dispatched as. -/
def opCall (op : Op) : Call :=
  match op.type with
  | .READ => .read (usize op.idx)
  | .WRITE => .write (usize op.idx) op.value
  | .STRING => .snap

/-- `void worker(MultiField& data, const std::vector<Op>& ops)` of
lab4.cpp: sequential dispatch loop.  `READ` discards the value read;
`STRING` materializes `std::string s = data;` (the conversion operator,
i.e. `to_string`) and discards it after taking its length. -/
def worker (data : MultiField) : List Op → MultiField × List Event
  | [] => (data, [])
  | op :: rest =>
      match op.type with
      | .READ =>
          let r := data.read (usize op.idx)
          let (d', es) := worker data rest
          (d', .read (usize op.idx) r :: es)
      | .WRITE =>
          let d1 := data.write (usize op.idx) op.value
          let (d', es) := worker d1 rest
          (d', .write (usize op.idx) op.value :: es)
      | .STRING =>
          let s := data.to_string
          let (d', es) := worker data rest
          (d', .snap s :: es)

end Lab4

namespace Demo

/-- The store call a demo `Op` is dispatched as (`Op::idx` is already
`size_t` in demo_lab4.cpp; no conversion). -/
def opCall (op : Op) : Call :=
  match op.type with
  | .READ => .read op.idx
  | .WRITE => .write op.idx op.value
  | .STRING => .snap

/-- `void execute_ops(MultiField& mf, const std::vector<Op>& ops)` of
demo_lab4.cpp; `STRING` materializes `std::string(mf)` (i.e.
`to_string`) and discards it after taking its size. -/
def execute_ops (mf : MultiField) : List Op → MultiField × List Event
  | [] => (mf, [])
  | op :: rest =>
      match op.type with
      | .READ =>
          let r := mf.read op.idx
          let (d', es) := execute_ops mf rest
          (d', .read op.idx r :: es)
      | .WRITE =>
          let d1 := mf.write op.idx op.value
          let (d', es) := execute_ops d1 rest
          (d', .write op.idx op.value :: es)
      | .STRING =>
          let s := mf.to_string
          let (d', es) := execute_ops mf rest
          (d', .snap s :: es)

end Demo

/-- The effect one dispatched op has on the store: only `WRITE` changes
it (used to state the executor theorems). -/
def lab4Step (st : Lab4.MultiField) (op : Lab4.Op) : Lab4.MultiField :=
  match op.type with
  | .WRITE => st.write (Lab4.usize op.idx) op.value
  | _ => st

/-- Demo counterpart of `lab4Step`. -/
def demoStep (st : Demo.MultiField) (op : Demo.Op) : Demo.MultiField :=
  match op.type with
  | .WRITE => st.write op.idx op.value
  | _ => st

namespace Workload

/-! ## Workload input model

The loaders consume a `std::ifstream` with `>>` token extraction and
(in demo_lab4.cpp) `std::getline`.  The stream is modelled as a list of
lines, each a list of whitespace-separated tokens, plus the stream's
fail state.  Numeric extraction follows `std::num_get` (C locale,
decimal): the sentry first skips whitespace — if the stream is already
failed or at end of input the sentry fails, `failbit` is set and
**nothing is stored** (the target keeps its previous, possibly
indeterminate, contents); otherwise the maximal prefix of the form
`sign? digit+` is consumed and converted.  If no digit can be consumed
the conversion fails: `0` is stored (C++11) and `failbit` is set.  An
out-of-range `int` value is stored saturated to `INT_MIN`/`INT_MAX`
with `failbit`; for an unsigned target a sign is accepted and negation
is taken modulo `2 ^ 64` (`strtoull` semantics), with out-of-range
digits storing the maximum with `failbit`.  Unconsumed characters of a
partially extracted token (as in `2x`) stay in the stream and are seen
by the next extraction.  Once `failbit` is set every further
extraction fails. -/

/-- An input stream: remaining lines (the head line is the remainder of
the current line; its head token may be the unconsumed remainder of a
partially extracted token) and the fail flag. -/
structure IStr where
  lines : List (List String)
  failed : Bool
deriving DecidableEq, Repr

/-- Find the next token, skipping line boundaries (as `>>` skips
whitespace including newlines). -/
def nextTok : List (List String) → Option (String × List (List String))
  | [] => none
  | [] :: ls => nextTok ls
  | (t :: ts) :: ls => some (t, ts :: ls)

/-- `ifs >> cmd` for a string target: reads the whole next
whitespace-delimited token; fails (storing nothing that the loaders
ever read) if the stream is already failed or at end of input. -/
def extractTok (s : IStr) : Option String × IStr :=
  if s.failed then (none, s)
  else
    match nextTok s.lines with
    | none => (none, ⟨s.lines, true⟩)
    | some (t, ls) => (some t, ⟨ls, false⟩)

/-- Maximal decimal-digit prefix: accumulated value and unconsumed
remainder (`num_get` digit accumulation). -/
def digits : List Char → Nat → Nat × List Char
  | [], acc => (acc, [])
  | c :: cs, acc =>
      if c.isDigit then digits cs (acc * 10 + (c.toNat - 48)) else (acc, c :: cs)

/-- Does the field continue with a digit (so a leading sign is part of
a numeric field rather than a lone sign)? -/
def digitLead : List Char → Bool
  | [] => false
  | c :: _ => c.isDigit

/-- The numeric field `operator>>` extracts from the front of a token:
an optional sign followed by at least one decimal digit, maximal
prefix.  `none` when no digit can be consumed (conversion failure);
otherwise (sign-is-minus, value of the digits, unconsumed remainder). -/
def scanField (cs : List Char) : Option (Bool × Nat × List Char) :=
  match cs with
  | [] => none
  | c :: rest =>
      if c = '-' then
        if digitLead rest then some (true, digits rest 0) else none
      else if c = '+' then
        if digitLead rest then some (false, digits rest 0) else none
      else if c.isDigit then some (false, digits (c :: rest) 0)
      else none

/-- `INT_MIN` of the sources' 32-bit `int`. -/
def intMin : Int := -(2 ^ 31)

/-- `INT_MAX` of the sources' 32-bit `int`. -/
def intMax : Int := 2 ^ 31 - 1

/-- Largest `size_t` value (64-bit). -/
def uintMax : Nat := 2 ^ 64 - 1

/-- Conversion of an extracted field to `int`: the stored value and
whether the conversion succeeded (out-of-range values are stored
saturated to `INT_MIN`/`INT_MAX` with failure). -/
def convInt (n : Nat) (neg : Bool) : Int × Bool :=
  if neg then
    if -(n : Int) < intMin then (intMin, false) else (-(n : Int), true)
  else
    if intMax < (n : Int) then (intMax, false) else ((n : Int), true)

/-- Conversion of an extracted field to `size_t` (`strtoull`
semantics): a sign is accepted and negation is taken modulo `2 ^ 64`;
out-of-range digits store the maximum with failure. -/
def convNat (n : Nat) (neg : Bool) : Nat × Bool :=
  if uintMax < n then (uintMax, false)
  else if neg then ((2 ^ 64 - n) % 2 ^ 64, true)
  else (n, true)

/-- The tokens `operator>>` for `int` extracts *wholly* (no unconsumed
remainder) and in range (no `failbit`), with the stored value.  Used
as the side condition of the loader mapping equations: on exactly
these tokens, extraction consumes the token and succeeds. -/
def parseInt (t : String) : Option Int :=
  match scanField t.data with
  | some (neg, n, []) =>
      match convInt n neg with
      | (v, true) => some v
      | (_, false) => none
  | _ => none

/-- The tokens `operator>>` for `size_t` extracts wholly without
`failbit`, with the stored value. -/
def parseNat (t : String) : Option Nat :=
  match scanField t.data with
  | some (neg, n, []) =>
      match convNat n neg with
      | (v, true) => some v
      | (_, false) => none
  | _ => none

/-- Re-prepend the unconsumed remainder of a partially extracted token:
the stream position rests at its first unconsumed character. -/
def pushRest (rest : List Char) (ls : List (List String)) : List (List String) :=
  match rest with
  | [] => ls
  | _ =>
      match ls with
      | l :: ls' => (rest.asString :: l) :: ls'
      | [] => [[rest.asString]]

/-- `ifs >> target` for an `int` target whose current (possibly
indeterminate) contents are `cur`: sentry failure (failed stream or
end of input) stores nothing; conversion failure stores `0` (C++11);
otherwise the extracted value is stored (saturated with `failbit`
when out of `int` range) and the unconsumed remainder of the token
stays in the stream. -/
def extractInt (cur : Int) (s : IStr) : Int × IStr :=
  if s.failed then (cur, s)
  else
    match nextTok s.lines with
    | none => (cur, ⟨s.lines, true⟩)
    | some (t, ls) =>
        match scanField t.data with
        | none => (0, ⟨s.lines, true⟩)
        | some (neg, n, rest) =>
            match convInt n neg with
            | (v, ok) => (v, ⟨pushRest rest ls, !ok⟩)

/-- `ifs >> target` for a `size_t` target (demo_lab4.cpp): sentry
failure stores nothing; conversion failure stores `0`; otherwise
`convNat` conversion with the remainder left in the stream. -/
def extractNat (cur : Nat) (s : IStr) : Nat × IStr :=
  if s.failed then (cur, s)
  else
    match nextTok s.lines with
    | none => (cur, ⟨s.lines, true⟩)
    | some (t, ls) =>
        match scanField t.data with
        | none => (0, ⟨s.lines, true⟩)
        | some (neg, n, rest) =>
            match convNat n neg with
            | (v, ok) => (v, ⟨pushRest rest ls, !ok⟩)

/-- `std::string rest; std::getline(ifs, rest);` with `rest` discarded:
drop the remainder of the current line. -/
def dropLine (s : IStr) : IStr :=
  if s.failed then s
  else
    match s.lines with
    | [] => ⟨[], true⟩
    | _ :: ls => ⟨ls, false⟩

/-- Cost of one line: its tokens' characters plus separators. -/
def lineCost (l : List String) : Nat :=
  (l.map (fun t => t.length + 1)).sum + 1

/-- Termination measure for the loader loops: total character, token
and line count of the remaining input. -/
def msr (s : IStr) : Nat := (s.lines.map lineCost).sum

theorem digits_rest_le (cs : List Char) : ∀ acc : Nat,
    ((digits cs acc).2).length ≤ cs.length := by
  induction cs with
  | nil => intro acc; simp [digits]
  | cons c cs ih =>
      intro acc
      by_cases hc : c.isDigit
      · simp only [digits, hc, if_true]
        exact Nat.le_succ_of_le (ih _)
      · simp [digits, hc]

theorem scanField_rest_lt {cs : List Char} {neg : Bool} {n : Nat}
    {rest : List Char} (h : scanField cs = some (neg, n, rest)) :
    rest.length < cs.length := by
  cases cs with
  | nil => simp [scanField] at h
  | cons c tail =>
      simp only [scanField] at h
      by_cases h1 : c = '-'
      · rw [if_pos h1] at h
        by_cases h2 : digitLead tail
        · rw [if_pos h2] at h
          simp only [Option.some.injEq, Prod.mk.injEq] at h
          obtain ⟨-, hr⟩ := h
          have hreq : (digits tail 0).2 = rest := by rw [hr]
          calc rest.length = ((digits tail 0).2).length := by rw [hreq]
            _ ≤ tail.length := digits_rest_le _ _
            _ < (c :: tail).length := by simp
        · rw [if_neg h2] at h
          simp at h
      · rw [if_neg h1] at h
        by_cases h2 : c = '+'
        · rw [if_pos h2] at h
          by_cases h3 : digitLead tail
          · rw [if_pos h3] at h
            simp only [Option.some.injEq, Prod.mk.injEq] at h
            obtain ⟨-, hr⟩ := h
            have hreq : (digits tail 0).2 = rest := by rw [hr]
            calc rest.length = ((digits tail 0).2).length := by rw [hreq]
              _ ≤ tail.length := digits_rest_le _ _
              _ < (c :: tail).length := by simp
          · rw [if_neg h3] at h
            simp at h
        · rw [if_neg h2] at h
          by_cases h3 : c.isDigit
          · rw [if_pos h3] at h
            simp only [Option.some.injEq, Prod.mk.injEq] at h
            obtain ⟨-, hr⟩ := h
            have hreq : (digits (c :: tail) 0).2 = rest := by rw [hr]
            have hstep : digits (c :: tail) 0 = digits tail (0 * 10 + (c.toNat - 48)) := by
              simp [digits, h3]
            calc rest.length = ((digits (c :: tail) 0).2).length := by rw [hreq]
              _ = ((digits tail (0 * 10 + (c.toNat - 48))).2).length := by rw [hstep]
              _ ≤ tail.length := digits_rest_le _ _
              _ < (c :: tail).length := by simp
          · rw [if_neg h3] at h
            simp at h

theorem nextTok_ne_nil {lines : List (List String)} {t : String}
    {ls : List (List String)} (h : nextTok lines = some (t, ls)) : ls ≠ [] := by
  induction lines with
  | nil => simp [nextTok] at h
  | cons l rest ih =>
      match l with
      | [] => exact ih (by simpa [nextTok] using h)
      | tok :: ts =>
          simp only [nextTok, Option.some.injEq, Prod.mk.injEq] at h
          obtain ⟨-, rfl⟩ := h
          simp

theorem nextTok_msr {lines : List (List String)} {t : String}
    {ls : List (List String)} (h : nextTok lines = some (t, ls)) :
    (ls.map lineCost).sum + t.length + 1 ≤ (lines.map lineCost).sum := by
  induction lines with
  | nil => simp [nextTok] at h
  | cons l rest ih =>
      match l with
      | [] =>
          have := ih (by simpa [nextTok] using h)
          simp only [List.map_cons, List.sum_cons, lineCost, List.map_nil,
            List.sum_nil]
          omega
      | tok :: ts =>
          simp only [nextTok, Option.some.injEq, Prod.mk.injEq] at h
          obtain ⟨rfl, rfl⟩ := h
          simp only [List.map_cons, List.sum_cons, lineCost]
          omega

theorem extractTok_msr {s : IStr} {t : String} {s' : IStr}
    (h : extractTok s = (some t, s')) : msr s' < msr s := by
  unfold extractTok at h
  split at h
  · simp at h
  · split at h
    · simp at h
    · rename_i t' ls heq
      simp only [Prod.mk.injEq, Option.some.injEq] at h
      obtain ⟨-, rfl⟩ := h
      have := nextTok_msr heq
      show (ls.map lineCost).sum < (s.lines.map lineCost).sum
      omega

theorem pushRest_msr (rest : List Char) (l : List String)
    (ls : List (List String)) :
    ((pushRest rest (l :: ls)).map lineCost).sum ≤
      rest.length + 1 + ((l :: ls).map lineCost).sum := by
  cases rest with
  | nil => simp [pushRest]
  | cons r rs =>
      show (((((r :: rs).asString) :: l) :: ls).map lineCost).sum ≤ _
      simp only [List.map_cons, List.sum_cons, lineCost]
      have hlen : ((r :: rs).asString).length = (r :: rs).length := rfl
      rw [hlen]
      simp only [List.length_cons]
      omega

theorem extractInt_msr_le (cur : Int) (s : IStr) :
    msr (extractInt cur s).2 ≤ msr s := by
  unfold extractInt
  by_cases hf : s.failed
  · simp [hf]
  · simp only [hf, Bool.false_eq_true, if_false]
    rcases heq : nextTok s.lines with - | ⟨t, ls⟩
    · simp only [heq]
      simp [msr]
    · simp only [heq]
      rcases hsf : scanField t.data with - | ⟨neg, n, rest⟩
      · simp only [hsf]
        simp [msr]
      · simp only [hsf]
        rcases hconv : convInt n neg with ⟨v, ok⟩
        simp only [hconv]
        have hmain := nextTok_msr heq
        have hrest : rest.length < t.length := scanField_rest_lt hsf
        rcases hls : ls with - | ⟨l, lsr⟩
        · exact absurd hls (nextTok_ne_nil heq)
        · subst hls
          have hpush := pushRest_msr rest l lsr
          show ((pushRest rest (l :: lsr)).map lineCost).sum ≤
            (s.lines.map lineCost).sum
          omega

theorem extractNat_msr_le (cur : Nat) (s : IStr) :
    msr (extractNat cur s).2 ≤ msr s := by
  unfold extractNat
  by_cases hf : s.failed
  · simp [hf]
  · simp only [hf, Bool.false_eq_true, if_false]
    rcases heq : nextTok s.lines with - | ⟨t, ls⟩
    · simp only [heq]
      simp [msr]
    · simp only [heq]
      rcases hsf : scanField t.data with - | ⟨neg, n, rest⟩
      · simp only [hsf]
        simp [msr]
      · simp only [hsf]
        rcases hconv : convNat n neg with ⟨v, ok⟩
        simp only [hconv]
        have hmain := nextTok_msr heq
        have hrest : rest.length < t.length := scanField_rest_lt hsf
        rcases hls : ls with - | ⟨l, lsr⟩
        · exact absurd hls (nextTok_ne_nil heq)
        · subst hls
          have hpush := pushRest_msr rest l lsr
          show ((pushRest rest (l :: lsr)).map lineCost).sum ≤
            (s.lines.map lineCost).sum
          omega

theorem dropLine_msr_le (s : IStr) : msr (dropLine s) ≤ msr s := by
  rcases s with ⟨lines, failed⟩
  match failed, lines with
  | true, _ => simp [dropLine]
  | false, [] => simp [dropLine, msr]
  | false, l :: ls =>
      simp only [dropLine, msr, Bool.false_eq_true, if_false, List.map_cons,
        List.sum_cons]
      omega

end Workload

namespace Lab4

/-- The `while (ifs >> cmd)` loop of `load_ops` (lab4.cpp).  Note the
loop has no `else` branch: a token that is not `read` / `write` /
`string` is skipped and the loop continues with the *next token*.
`gi`/`gv` are the indeterminate contents of the uninitialized locals
`int idx; int val;`, observable only when a sentry-failed extraction
stores nothing; any failed extraction sets `failbit` and ends the loop
at its next iteration, so at most the final iteration can observe
them and one pair of values suffices. -/
def loadLoop (gi gv : Int) (s : Workload.IStr) : List Op :=
  match h : Workload.extractTok s with
  | (none, _) => []
  | (some cmd, s1) =>
      if cmd = "read" then
        match h2 : Workload.extractInt gi s1 with
        | (idx, s2) => { type := .READ, idx := idx, value := 0 } :: loadLoop gi gv s2
      else if cmd = "write" then
        match h2 : Workload.extractInt gi s1 with
        | (idx, s2) =>
            match h3 : Workload.extractInt gv s2 with
            | (val, s3) =>
                { type := .WRITE, idx := idx, value := val } :: loadLoop gi gv s3
      else if cmd = "string" then
        { type := .STRING, idx := 0, value := 0 } :: loadLoop gi gv s1
      else
        loadLoop gi gv s1
termination_by Workload.msr s
decreasing_by
  · have h1 := Workload.extractTok_msr h
    have h2' := Workload.extractInt_msr_le gi s1
    rw [h2] at h2'
    exact Nat.lt_of_le_of_lt h2' h1
  · have h1 := Workload.extractTok_msr h
    have h2' := Workload.extractInt_msr_le gi s1
    have h3' := Workload.extractInt_msr_le gv s2
    rw [h2] at h2'
    rw [h3] at h3'
    exact Nat.lt_of_le_of_lt (Nat.le_trans h3' h2') h1
  · exact Workload.extractTok_msr h
  · exact Workload.extractTok_msr h

/-- `std::vector<Op> load_ops(const std::string& filename)` (lab4.cpp):
`opened` models `ifs.is_open()` (an unopenable file yields the empty
op vector), `gi`/`gv` the indeterminate contents of the uninitialized
numeric locals. -/
def load_ops (opened : Bool) (gi gv : Int) (input : List (List String)) : List Op :=
  if opened then loadLoop gi gv ⟨input, false⟩ else []

end Lab4

namespace Demo

/-- The `while (ifs >> cmd)` loop of `load_ops_from_file`
(demo_lab4.cpp).  Unlike lab4.cpp it has an `else` branch that
discards the rest of the current line with `std::getline`.  `gi`/`gv`
are the indeterminate contents of the uninitialized locals
`size_t idx; int val;` (see `Lab4.loadLoop`). -/
def loadLoop (gi : Nat) (gv : Int) (s : Workload.IStr) : List Op :=
  match h : Workload.extractTok s with
  | (none, _) => []
  | (some cmd, s1) =>
      if cmd = "read" then
        match h2 : Workload.extractNat gi s1 with
        | (idx, s2) => { type := .READ, idx := idx, value := 0 } :: loadLoop gi gv s2
      else if cmd = "write" then
        match h2 : Workload.extractNat gi s1 with
        | (idx, s2) =>
            match h3 : Workload.extractInt gv s2 with
            | (val, s3) =>
                { type := .WRITE, idx := idx, value := val } :: loadLoop gi gv s3
      else if cmd = "string" then
        { type := .STRING, idx := 0, value := 0 } :: loadLoop gi gv s1
      else
        loadLoop gi gv (Workload.dropLine s1)
termination_by Workload.msr s
decreasing_by
  · have h1 := Workload.extractTok_msr h
    have h2' := Workload.extractNat_msr_le gi s1
    rw [h2] at h2'
    exact Nat.lt_of_le_of_lt h2' h1
  · have h1 := Workload.extractTok_msr h
    have h2' := Workload.extractNat_msr_le gi s1
    have h3' := Workload.extractInt_msr_le gv s2
    rw [h2] at h2'
    rw [h3] at h3'
    exact Nat.lt_of_le_of_lt (Nat.le_trans h3' h2') h1
  · exact Workload.extractTok_msr h
  · have h1 := Workload.extractTok_msr h
    exact Nat.lt_of_le_of_lt (Workload.dropLine_msr_le s1) h1

/-- `std::vector<Op> load_ops_from_file(const std::string& filename)`
(demo_lab4.cpp): `opened` models `(bool)ifs`, `gi`/`gv` the
indeterminate contents of the uninitialized numeric locals. -/
def load_ops_from_file (opened : Bool) (gi : Nat) (gv : Int)
    (input : List (List String)) : List Op :=
  if opened then loadLoop gi gv ⟨input, false⟩ else []

end Demo

/-! ## Scheduler lemmas: invariant, preservation, progress, measure -/

namespace Locks

theorem ok_nil_cur {h : List (Nat × LMode)} (hk : Ok h []) : h = [] := by
  cases hk
  rfl

theorem ok_append_rds (h : List (Nat × LMode)) (l : List Nat) (c : List LAct)
    (hc : Ok h c) : Ok h (l.map .rd ++ c) := by
  induction l with
  | nil => simpa using hc
  | cons x xs ih => simpa using Ok.rd _ _ x ih

theorem removeKey_cons_self (k : Nat) (m : LMode) (t : List (Nat × LMode)) :
    removeKey ((k, m) :: t) k = t := by
  simp [removeKey, List.eraseP_cons]

theorem ok_rels (m : LMode) (n : Nat) : ∀ k,
    Ok ((List.range' k n).map (fun i => (i, m))) ((List.range' k n).map .rel) := by
  induction n with
  | zero => intro k; simpa using Ok.nil
  | succ n ih =>
      intro k
      rw [List.range'_succ]
      simp only [List.map_cons]
      apply Ok.rel
      rw [removeKey_cons_self]
      exact ih (k + 1)

theorem ok_acqs (m : LMode) (n : Nat) : ∀ (k : Nat) (c : List LAct),
    Ok ((List.range' 0 (k + n)).map (fun i => (i, m))) c →
    Ok ((List.range' 0 k).map (fun i => (i, m)))
      (((List.range' k n).map (fun i => .acq i m)) ++ c) := by
  induction n with
  | zero => intro k c hc; simpa using hc
  | succ n ih =>
      intro k c hc
      rw [List.range'_succ]
      simp only [List.map_cons, List.cons_append]
      apply Ok.acq
      · intro p hp
        simp only [List.mem_map, List.mem_range'] at hp
        obtain ⟨j, ⟨i, hi, hji⟩, rfl⟩ := hp
        omega
      · have hconc : (List.range' 0 k).map (fun i => (i, m)) ++ [(k, m)] =
            (List.range' 0 (k + 1)).map (fun i => (i, m)) := by
          rw [List.range'_concat]
          simp
        rw [hconc]
        have hc' : Ok ((List.range' 0 ((k + 1) + n)).map (fun i => (i, m))) c := by
          have harith : (k + 1) + n = k + (n + 1) := by omega
          rw [harith]
          exact hc
        exact ih (k + 1) c hc'

/-- Every store call obeys the lock discipline from an empty held set. -/
theorem compile_ok (M : Nat) (op : LOp) : Ok [] (compile M op) := by
  cases op with
  | read i =>
      by_cases hi : i < M
      · simp only [compile, if_pos hi]
        apply Ok.acq _ _ _ _ (by intro p hp; simp at hp)
        simp only [List.nil_append]
        apply Ok.rd
        apply Ok.rel
        rw [removeKey_cons_self]
        exact Ok.nil
      · simp only [compile, if_neg hi]
        exact Ok.nil
  | write i =>
      by_cases hi : i < M
      · simp only [compile, if_pos hi]
        apply Ok.acq _ _ _ _ (by intro p hp; simp at hp)
        simp only [List.nil_append]
        apply Ok.wr
        apply Ok.rel
        rw [removeKey_cons_self]
        exact Ok.nil
      · simp only [compile, if_neg hi]
        exact Ok.nil
  | snap =>
      show Ok [] (_ ++ _ ++ _)
      rw [List.append_assoc]
      have h0 : Ok ((List.range' 0 M).map (fun i => (i, LMode.shared)))
          (((List.range M).map LAct.rd) ++ ((List.range M).map LAct.rel)) := by
        rw [List.range_eq_range']
        exact ok_append_rds _ _ _ (ok_rels _ M 0)
      have h1 := ok_acqs LMode.shared M 0 _ (by simpa using h0)
      simpa [List.range_eq_range'] using h1

theorem ok_acq_inv {h : List (Nat × LMode)} {c : List LAct} {i : Nat} {m : LMode}
    (hk : Ok h (.acq i m :: c)) : (∀ p ∈ h, p.1 < i) ∧ Ok (h ++ [(i, m)]) c := by
  cases hk with
  | acq _ _ _ _ hlt hn => exact ⟨hlt, hn⟩

theorem inv_mid {l₁ l₂ : List Thread} {θ : Thread}
    (hinv : Inv (l₁ ++ θ :: l₂)) : Ok θ.held θ.cur :=
  hinv θ (by simp)

theorem inv_update {l₁ l₂ : List Thread} {θ θ' : Thread}
    (hinv : Inv (l₁ ++ θ :: l₂)) (hok : Ok θ'.held θ'.cur) :
    Inv (l₁ ++ θ' :: l₂) := by
  intro τ hτ
  rcases List.mem_append.mp hτ with h1 | h2
  · exact hinv τ (List.mem_append.mpr (Or.inl h1))
  · rcases List.mem_cons.mp h2 with rfl | h3
    · exact hok
    · exact hinv τ (by simp [h3])

/-- The lock discipline is preserved by every scheduler step. -/
theorem step_inv {M : Nat} {ts ts' : List Thread} (hs : Step M ts ts')
    (hinv : Inv ts) : Inv ts' := by
  cases hs with
  | start l₁ l₂ h op r =>
      have hold := inv_mid hinv
      have hnil : h = [] := ok_nil_cur hold
      subst hnil
      exact inv_update hinv (compile_ok M op)
  | acq l₁ l₂ h i m c r hok =>
      have hold := inv_mid hinv
      apply inv_update hinv
      cases hold with
      | acq _ _ _ _ hlt hnext => exact hnext
  | rel l₁ l₂ h i c r =>
      have hold := inv_mid hinv
      apply inv_update hinv
      cases hold with
      | rel _ _ _ hnext => exact hnext
  | rd l₁ l₂ h i c r =>
      have hold := inv_mid hinv
      apply inv_update hinv
      cases hold with
      | rd _ _ _ hnext => exact hnext
  | wr l₁ l₂ h i c r =>
      have hold := inv_mid hinv
      apply inv_update hinv
      cases hold with
      | wr _ _ _ hnext => exact hnext

theorem exists_max_nat {l : List Nat} (h : l ≠ []) : ∃ w ∈ l, ∀ x ∈ l, x ≤ w := by
  induction l with
  | nil => exact absurd rfl h
  | cons a t ih =>
      cases t with
      | nil => exact ⟨a, by simp, by simp⟩
      | cons b u =>
          obtain ⟨w, hw, hmax⟩ := ih (by simp)
          by_cases ha : a ≤ w
          · refine ⟨w, by simp [hw], ?_⟩
            intro x hx
            rcases List.mem_cons.mp hx with rfl | hx'
            · exact ha
            · exact hmax x hx'
          · refine ⟨a, by simp, ?_⟩
            intro x hx
            rcases List.mem_cons.mp hx with rfl | hx'
            · exact Nat.le_refl _
            · exact Nat.le_trans (hmax x hx') (Nat.le_of_lt (Nat.lt_of_not_le ha))

/-- Progress: while some worker is unfinished, some worker can move.
The crux is the acquire-only case: among all threads blocked on an
acquisition, one wanting a maximal guard index `w` cannot be blocked —
any thread holding guard `w` obeys the ascending discipline, so its
own next acquisition would want a guard above `w`. -/
theorem progress {M : Nat} {ts : List Thread} (hinv : Inv ts)
    (hnd : ¬ AllDone ts) : ∃ ts', Step M ts ts' := by
  classical
  have hex : ∃ θ ∈ ts, ¬ ThreadDone θ := by
    unfold AllDone at hnd
    push_neg at hnd
    exact hnd
  by_cases hall : ∀ θ ∈ ts, ¬ ThreadDone θ → ∃ i m c, θ.cur = LAct.acq i m :: c
  · -- every unfinished thread is about to acquire
    obtain ⟨θ₀, hθ₀, hnd₀⟩ := hex
    obtain ⟨i₀, m₀, c₀, hc₀⟩ := hall θ₀ hθ₀ hnd₀
    have hne : ts.filterMap wantedOf ≠ [] := by
      have hmem : i₀ ∈ ts.filterMap wantedOf :=
        List.mem_filterMap.mpr ⟨θ₀, hθ₀, by simp [wantedOf, hc₀]⟩
      intro hcon
      rw [hcon] at hmem
      exact absurd hmem (List.not_mem_nil _)
    obtain ⟨w, hwmem, hwmax⟩ := exists_max_nat hne
    obtain ⟨θ, hθ, hwant⟩ := List.mem_filterMap.mp hwmem
    have hcurw : ∃ m c, θ.cur = LAct.acq w m :: c := by
      unfold wantedOf at hwant
      rcases hcur : θ.cur with _ | ⟨a, c⟩ <;> rw [hcur] at hwant
      · simp at hwant
      · cases a with
        | acq i m =>
            simp only [Option.some.injEq] at hwant
            subst hwant
            exact ⟨m, c, rfl⟩
        | rel i => simp at hwant
        | rd i => simp at hwant
        | wr i => simp at hwant
    obtain ⟨m, c, hcur⟩ := hcurw
    obtain ⟨l₁, l₂, rfl⟩ := List.append_of_mem hθ
    have hcan : canAcq (l₁ ++ l₂) w m = true := by
      by_contra hblock
      have hexτ : ∃ τ ∈ l₁ ++ l₂, blocksAcq w m τ = true := by
        unfold canAcq at hblock
        rw [List.all_eq_true] at hblock
        push_neg at hblock
        obtain ⟨τ, hτ, hb⟩ := hblock
        refine ⟨τ, hτ, ?_⟩
        revert hb
        cases blocksAcq w m τ <;> simp
      obtain ⟨τ, hτmem, hτb⟩ := hexτ
      have hkey : ∃ m', (w, m') ∈ τ.held := by
        unfold blocksAcq at hτb
        cases m with
        | shared =>
            rw [List.any_eq_true] at hτb
            obtain ⟨p, hp, hpb⟩ := hτb
            simp only [Bool.and_eq_true, beq_iff_eq] at hpb
            refine ⟨p.2, ?_⟩
            have hpe : (p.1, p.2) = p := rfl
            rw [← hpb.1, hpe]
            exact hp
        | excl =>
            rw [List.any_eq_true] at hτb
            obtain ⟨p, hp, hpb⟩ := hτb
            simp only [beq_iff_eq] at hpb
            refine ⟨p.2, ?_⟩
            have hpe : (p.1, p.2) = p := rfl
            rw [← hpb, hpe]
            exact hp
      obtain ⟨m', hm'⟩ := hkey
      have hτts : τ ∈ l₁ ++ θ :: l₂ := by
        rcases List.mem_append.mp hτmem with h1 | h2
        · exact List.mem_append.mpr (Or.inl h1)
        · exact List.mem_append.mpr (Or.inr (List.mem_cons_of_mem _ h2))
      have hokτ := hinv τ hτts
      have hcne : τ.cur ≠ [] := by
        intro hc0
        rw [hc0] at hokτ
        have := ok_nil_cur hokτ
        rw [this] at hm'
        exact absurd hm' (List.not_mem_nil _)
      have hndτ : ¬ ThreadDone τ := fun hd => hcne hd.1
      obtain ⟨j, mj, cj, hcurτ⟩ := hall τ hτts hndτ
      have hwj : w < j := by
        rw [hcurτ] at hokτ
        exact (ok_acq_inv hokτ).1 (w, m') hm'
      have hjwl : j ∈ (l₁ ++ θ :: l₂).filterMap wantedOf :=
        List.mem_filterMap.mpr ⟨τ, hτts, by simp [wantedOf, hcurτ]⟩
      have := hwmax j hjwl
      omega
    refine ⟨l₁ ++ ⟨θ.held ++ [(w, m)], c, θ.rest⟩ :: l₂, ?_⟩
    have hθeq : θ = ⟨θ.held, LAct.acq w m :: c, θ.rest⟩ := by
      rcases θ with ⟨a, b, d⟩
      simp only at hcur
      rw [hcur]
    rw [hθeq]
    exact Step.acq l₁ l₂ θ.held w m c θ.rest hcan
  · -- some unfinished thread's next move is not an acquisition
    push_neg at hall
    obtain ⟨θ, hθ, hndθ, hacq⟩ := hall
    obtain ⟨l₁, l₂, rfl⟩ := List.append_of_mem hθ
    rcases hcur : θ.cur with _ | ⟨a, c⟩
    · have hrne : θ.rest ≠ [] := fun hr => hndθ ⟨hcur, hr⟩
      rcases hrest : θ.rest with _ | ⟨op, r⟩
      · exact absurd hrest hrne
      · refine ⟨l₁ ++ ⟨θ.held, compile M op, r⟩ :: l₂, ?_⟩
        have hθeq : θ = ⟨θ.held, [], op :: r⟩ := by
          rcases θ with ⟨a', b', d'⟩
          simp only at hcur hrest
          rw [hcur, hrest]
        rw [hθeq]
        exact Step.start l₁ l₂ θ.held op r
    · cases a with
      | acq i m => exact absurd hcur (hacq i m c)
      | rel i =>
          refine ⟨l₁ ++ ⟨removeKey θ.held i, c, θ.rest⟩ :: l₂, ?_⟩
          have hθeq : θ = ⟨θ.held, LAct.rel i :: c, θ.rest⟩ := by
            rcases θ with ⟨a', b', d'⟩
            simp only at hcur
            rw [hcur]
          rw [hθeq]
          exact Step.rel l₁ l₂ θ.held i c θ.rest
      | rd i =>
          refine ⟨l₁ ++ ⟨θ.held, c, θ.rest⟩ :: l₂, ?_⟩
          have hθeq : θ = ⟨θ.held, LAct.rd i :: c, θ.rest⟩ := by
            rcases θ with ⟨a', b', d'⟩
            simp only at hcur
            rw [hcur]
          rw [hθeq]
          exact Step.rd l₁ l₂ θ.held i c θ.rest
      | wr i =>
          refine ⟨l₁ ++ ⟨θ.held, c, θ.rest⟩ :: l₂, ?_⟩
          have hθeq : θ = ⟨θ.held, LAct.wr i :: c, θ.rest⟩ := by
            rcases θ with ⟨a', b', d'⟩
            simp only at hcur
            rw [hcur]
          rw [hθeq]
          exact Step.wr l₁ l₂ θ.held i c θ.rest

theorem sysMeasure_update (M : Nat) (l₁ l₂ : List Thread) (θ θ' : Thread)
    (h : thMeasure M θ' < thMeasure M θ) :
    sysMeasure M (l₁ ++ θ' :: l₂) < sysMeasure M (l₁ ++ θ :: l₂) := by
  unfold sysMeasure
  simp only [List.map_append, List.map_cons, List.sum_append, List.sum_cons]
  omega

/-- Every scheduler step strictly decreases the remaining work. -/
theorem step_measure {M : Nat} {ts ts' : List Thread} (hs : Step M ts ts') :
    sysMeasure M ts' < sysMeasure M ts := by
  cases hs with
  | start l₁ l₂ h op r =>
      apply sysMeasure_update
      unfold thMeasure opCost
      simp only [List.length_nil, List.map_cons, List.sum_cons]
      omega
  | acq l₁ l₂ h i m c r hok =>
      apply sysMeasure_update
      unfold thMeasure
      simp only [List.length_cons]
      omega
  | rel l₁ l₂ h i c r =>
      apply sysMeasure_update
      unfold thMeasure
      simp only [List.length_cons]
      omega
  | rd l₁ l₂ h i c r =>
      apply sysMeasure_update
      unfold thMeasure
      simp only [List.length_cons]
      omega
  | wr l₁ l₂ h i c r =>
      apply sysMeasure_update
      unfold thMeasure
      simp only [List.length_cons]
      omega

/-- The lock discipline holds in every state reachable from the
driver's launch state. -/
theorem reach_inv {M : Nat} {streams : List (List LOp)} {ts : List Thread}
    (h : Relation.ReflTransGen (Step M) (initThreads streams) ts) : Inv ts := by
  induction h with
  | refl =>
      intro θ hθ
      unfold initThreads at hθ
      obtain ⟨st, hst, rfl⟩ := List.mem_map.mp hθ
      exact Ok.nil
  | tail hsteps hstep ih => exact step_inv hstep ih

/-! ### Position analysis of the snapshot trace -/

theorem append_decomp {α : Type _} {l p q : List α} {x : α} (h : l = p ++ x :: q) :
    p = l.take p.length ∧ l[p.length]? = some x := by
  subst h
  refine ⟨(List.take_left p (x :: q)).symm, ?_⟩
  rw [List.getElem?_append_right (Nat.le_refl _)]
  simp

theorem snap_trace_getElem (M k : Nat) :
    (compile M .snap)[k]? =
      if k < M then some (.acq k .shared)
      else if k < 2 * M then some (.rd (k - M))
      else if k < 3 * M then some (.rel (k - 2 * M)) else none := by
  show ((((List.range M).map (fun i => LAct.acq i .shared)) ++
      ((List.range M).map LAct.rd) ++ ((List.range M).map LAct.rel)))[k]? = _
  by_cases h1 : k < M
  · rw [List.getElem?_append_left (by simp; omega),
      List.getElem?_append_left (by simpa using h1),
      List.getElem?_map, List.getElem?_range h1]
    simp [h1]
  · by_cases h2 : k < 2 * M
    · rw [List.getElem?_append_left (by simp; omega),
        List.getElem?_append_right (by simp; omega),
        List.getElem?_map]
      have hlt : k - ((List.range M).map (fun i => LAct.acq i .shared)).length < M := by
        simp
        omega
      rw [List.getElem?_range (by simpa using hlt)]
      simp only [List.length_map, List.length_range]
      simp [h1, h2]
    · by_cases h3 : k < 3 * M
      · rw [List.getElem?_append_right (by simp; omega), List.getElem?_map]
        have hlt : k - (((List.range M).map (fun i => LAct.acq i .shared)) ++
            ((List.range M).map LAct.rd)).length < M := by
          simp
          omega
        rw [List.getElem?_range (by simpa using hlt)]
        simp only [List.length_append, List.length_map, List.length_range]
        have harith : k - (M + M) = k - 2 * M := by omega
        rw [harith]
        simp [h1, h2, h3]
      · rw [List.getElem?_append_right (by simp; omega)]
        rw [List.getElem?_eq_none (by simp; omega)]
        simp [h1, h2, h3]

/-- Any prefix of the snapshot trace ending just before a field read
holds every guard `0..M-1`. -/
theorem snap_held_at_rd (M : Nat) {p q : List LAct} {i : Nat}
    (h : compile M .snap = p ++ .rd i :: q) :
    (heldAfter [] p).map Prod.fst = List.range M := by
  obtain ⟨hp, hget⟩ := append_decomp h
  rw [snap_trace_getElem] at hget
  by_cases h1 : p.length < M
  · rw [if_pos h1] at hget
    exact absurd (Option.some.inj hget) (by simp)
  · by_cases h2 : p.length < 2 * M
    · rw [if_neg h1, if_pos h2] at hget
      have hpeq : p = ((List.range M).map (fun j => LAct.acq j .shared)) ++
          ((List.range (p.length - M)).map LAct.rd) := by
        conv_lhs => rw [hp]
        show (((List.range M).map (fun j => LAct.acq j .shared) ++
            (List.range M).map LAct.rd ++ (List.range M).map LAct.rel)).take p.length = _
        rw [List.take_append_of_le_length (by simp; omega),
          List.take_append_eq_append_take,
          List.take_of_length_le (by simp; omega)]
        congr 1
        rw [← List.map_take, List.take_range]
        congr 2
        simp only [List.length_map, List.length_range]
        omega
      rw [hpeq, heldAfter_append, heldAfter_acqs, List.nil_append, heldAfter_rds]
      rw [List.map_map]
      have hcomp : (Prod.fst ∘ fun j : Nat => (j, LMode.shared)) = id := rfl
      rw [hcomp, List.map_id]
    · by_cases h3 : p.length < 3 * M
      · rw [if_neg h1, if_neg h2, if_pos h3] at hget
        exact absurd (Option.some.inj hget) (by simp)
      · rw [if_neg h1, if_neg h2, if_neg h3] at hget
        exact absurd hget (by simp)

/-- All guards are free again when the snapshot trace finishes. -/
theorem snap_held_final (M : Nat) : heldAfter [] (compile M .snap) = [] := by
  show heldAfter [] ((List.range M).map (fun i => LAct.acq i .shared) ++
      (List.range M).map LAct.rd ++ (List.range M).map LAct.rel) = []
  rw [heldAfter_append, heldAfter_append, heldAfter_acqs, List.nil_append,
    heldAfter_rds, List.range_eq_range']
  exact heldAfter_rels M 0 .shared

theorem append_eq_three {α : Type _} {a b c : α} {p q : List α}
    (h : p ++ q = [a, b, c]) :
    p = [] ∨ p = [a] ∨ p = [a, b] ∨ p = [a, b, c] := by
  rcases p with _ | ⟨x, _ | ⟨y, _ | ⟨z, _ | ⟨v, t⟩⟩⟩⟩
  · exact Or.inl rfl
  · simp only [List.cons_append, List.nil_append, List.cons.injEq] at h
    exact Or.inr (Or.inl (by rw [h.1]))
  · simp only [List.cons_append, List.nil_append, List.cons.injEq] at h
    exact Or.inr (Or.inr (Or.inl (by rw [h.1, h.2.1])))
  · simp only [List.cons_append, List.nil_append, List.cons.injEq] at h
    exact Or.inr (Or.inr (Or.inr (by rw [h.1, h.2.1, h.2.2.1])))
  · exfalso
    have hlen := congrArg List.length h
    simp only [List.length_append, List.length_cons, List.length_nil] at hlen
    omega

/-- A single-field operation holds at most one guard at any point of
its trace. -/
theorem single_field_one_lock (M : Nat) (op : LOp) (hop : op ≠ .snap)
    {p q : List LAct} (h : compile M op = p ++ q) :
    (heldAfter [] p).length ≤ 1 := by
  have key : ∀ (i : Nat) (m : LMode) (x : LAct), (∀ hh, heldStep hh x = hh) →
      [LAct.acq i m, x, LAct.rel i] = p ++ q → (heldAfter [] p).length ≤ 1 := by
    intro i m x hx heq
    rcases append_eq_three heq.symm with rfl | rfl | rfl | rfl
    · simp [heldAfter]
    · simp [heldAfter, heldStep]
    · show (heldStep (heldStep [] (LAct.acq i m)) x).length ≤ 1
      rw [hx]
      simp [heldStep]
    · show (heldStep (heldStep (heldStep [] (LAct.acq i m)) x) (LAct.rel i)).length ≤ 1
      rw [hx]
      simp [heldStep, removeKey, List.eraseP_cons]
  cases op with
  | read i =>
      by_cases hi : i < M
      · exact key i .shared (.rd i) (fun hh => rfl) (by rw [← h, compile, if_pos hi])
      · rw [compile, if_neg hi] at h
        have : p = [] := by
          cases p with
          | nil => rfl
          | cons a t => exact absurd h.symm (by simp)
        rw [this]
        simp [heldAfter]
  | write i =>
      by_cases hi : i < M
      · exact key i .excl (.wr i) (fun hh => rfl) (by rw [← h, compile, if_pos hi])
      · rw [compile, if_neg hi] at h
        have : p = [] := by
          cases p with
          | nil => rfl
          | cons a t => exact absurd h.symm (by simp)
        rw [this]
        simp [heldAfter]
  | snap => exact absurd rfl hop

end Locks

/-! ## Formatting lemmas: the snapshot string -/

/-- The loop of `to_string` is a comma-and-space `intercalate`: the go
loop of `String.intercalate` performs exactly the accumulation the
`i > 0` branch of the C++ loop performs once the flag is set. -/
theorem renderLoop_go_eq (vs : List Int) : ∀ s : String,
    (vs.foldl
      (fun (acc : String × Bool) v =>
        (acc.1 ++ (if acc.2 then ", " else "") ++ toString v, true))
      (s, true)).1 = String.intercalate.go s ", " (vs.map toString) := by
  induction vs with
  | nil => intro s; rfl
  | cons v vs ih =>
      intro s
      show (vs.foldl _ (s ++ ", " ++ toString v, true)).1 =
        String.intercalate.go (s ++ ", " ++ toString v) ", " (vs.map toString)
      exact ih (s ++ ", " ++ toString v)

theorem renderLoop_eq (vs : List Int) :
    Lab4.renderLoop vs = String.intercalate ", " (vs.map toString) := by
  cases vs with
  | nil => rfl
  | cons v vs =>
      show (vs.foldl _ (("" : String) ++ "" ++ toString v, true)).1 =
        String.intercalate.go (toString v) ", " (vs.map toString)
      have he : ("" : String) ++ "" ++ toString v = toString v := by
        have : (("" : String) ++ "" ++ toString v).data = (toString v).data := by simp
        exact congrArg String.mk this
      rw [he]
      exact renderLoop_go_eq vs (toString v)

theorem digitChar_ne_newline : ∀ d, d < 10 → Nat.digitChar d ≠ '\n' := by decide

theorem toDigitsCore_ne_newline (f : Nat) : ∀ (n : Nat) (ds : List Char),
    (∀ c ∈ ds, c ≠ '\n') → ∀ c ∈ Nat.toDigitsCore 10 f n ds, c ≠ '\n' := by
  induction f with
  | zero => intro n ds hds c hc; exact hds c hc
  | succ f ih =>
      intro n ds hds c hc
      have hd : Nat.digitChar (n % 10) ≠ '\n' :=
        digitChar_ne_newline _ (Nat.mod_lt _ (by omega))
      have hcons : ∀ c' ∈ Nat.digitChar (n % 10) :: ds, c' ≠ '\n' := by
        intro c' hc'
        rcases List.mem_cons.mp hc' with rfl | hm
        · exact hd
        · exact hds c' hm
      simp only [Nat.toDigitsCore] at hc
      by_cases h0 : n / 10 = 0
      · rw [if_pos h0] at hc
        exact hcons c hc
      · rw [if_neg h0] at hc
        exact ih (n / 10) (Nat.digitChar (n % 10) :: ds) hcons c hc

theorem natRepr_ne_newline (n : Nat) : ∀ c ∈ (Nat.repr n).data, c ≠ '\n' :=
  toDigitsCore_ne_newline (n + 1) n [] (by intro c hc; simp at hc)

theorem intToString_ne_newline (v : Int) : ∀ c ∈ (toString v).data, c ≠ '\n' := by
  cases v with
  | ofNat m => exact natRepr_ne_newline m
  | negSucc m =>
      show ∀ c ∈ ("-" ++ Nat.repr (m + 1)).data, c ≠ '\n'
      intro c hc
      rw [String.data_append] at hc
      rcases List.mem_append.mp hc with h1 | h2
      · have : c = '-' := by simpa using h1
        rw [this]
        decide
      · exact natRepr_ne_newline _ c h2

theorem renderLoop_fold_ne_newline (vs : List Int) : ∀ (s : String) (b : Bool),
    (∀ c ∈ s.data, c ≠ '\n') →
    ∀ c ∈ ((vs.foldl
      (fun (acc : String × Bool) v =>
        (acc.1 ++ (if acc.2 then ", " else "") ++ toString v, true))
      (s, b)).1).data, c ≠ '\n' := by
  induction vs with
  | nil => intro s b hs c hc; exact hs c hc
  | cons v vs ih =>
      intro s b hs c hc
      refine ih (s ++ (if b then ", " else "") ++ toString v) true ?_ c hc
      intro c' hc'
      rw [String.data_append, String.data_append] at hc'
      rcases List.mem_append.mp hc' with h1 | h2
      · rcases List.mem_append.mp h1 with h3 | h4
        · exact hs c' h3
        · cases b with
          | true =>
              have : c' = ',' ∨ c' = ' ' := by simpa using h4
              rcases this with rfl | rfl <;> decide
          | false => simp at h4
      · exact intToString_ne_newline v c' h2

theorem renderLoop_ne_newline (vs : List Int) :
    ∀ c ∈ (Lab4.renderLoop vs).data, c ≠ '\n' :=
  renderLoop_fold_ne_newline vs "" false (by intro c hc; simp at hc)

/-! ## Extraction and loader step equations

One unfolding of each loader loop per input shape, proved from the
stream model.  `⟨(cmd :: ...) :: ls, false⟩` is a healthy stream whose
next token is `cmd`. -/

theorem extractInt_parse (gi : Int) (n : String) (v : Int) (ts : List String)
    (ls : List (List String)) (hn : Workload.parseInt n = some v) :
    Workload.extractInt gi ⟨(n :: ts) :: ls, false⟩ = (v, ⟨ts :: ls, false⟩) := by
  unfold Workload.parseInt at hn
  unfold Workload.extractInt
  rcases hsf : Workload.scanField n.data with - | ⟨neg, d, rest⟩
  · rw [hsf] at hn
    simp at hn
  · rw [hsf] at hn
    rcases rest with - | ⟨r, rs⟩
    · rcases hc : Workload.convInt d neg with ⟨v', ok⟩
      cases ok with
      | false =>
          exact absurd hn (by simp [hc])
      | true =>
          simp only [hc, Option.some.injEq] at hn
          subst hn
          simp [Workload.nextTok, hsf, hc, Workload.pushRest]
    · simp at hn

theorem extractNat_parse (gi : Nat) (n : String) (v : Nat) (ts : List String)
    (ls : List (List String)) (hn : Workload.parseNat n = some v) :
    Workload.extractNat gi ⟨(n :: ts) :: ls, false⟩ = (v, ⟨ts :: ls, false⟩) := by
  unfold Workload.parseNat at hn
  unfold Workload.extractNat
  rcases hsf : Workload.scanField n.data with - | ⟨neg, d, rest⟩
  · rw [hsf] at hn
    simp at hn
  · rw [hsf] at hn
    rcases rest with - | ⟨r, rs⟩
    · rcases hc : Workload.convNat d neg with ⟨v', ok⟩
      cases ok with
      | false =>
          exact absurd hn (by simp [hc])
      | true =>
          simp only [hc, Option.some.injEq] at hn
          subst hn
          simp [Workload.nextTok, hsf, hc, Workload.pushRest]
    · simp at hn

theorem extractInt_nodigit (gi : Int) (t : String) (ts : List String)
    (ls : List (List String)) (ht : Workload.scanField t.data = none) :
    Workload.extractInt gi ⟨(t :: ts) :: ls, false⟩ =
      (0, ⟨(t :: ts) :: ls, true⟩) := by
  unfold Workload.extractInt
  simp [Workload.nextTok, ht]

theorem extractNat_nodigit (gi : Nat) (t : String) (ts : List String)
    (ls : List (List String)) (ht : Workload.scanField t.data = none) :
    Workload.extractNat gi ⟨(t :: ts) :: ls, false⟩ =
      (0, ⟨(t :: ts) :: ls, true⟩) := by
  unfold Workload.extractNat
  simp [Workload.nextTok, ht]

theorem extractInt_prefix (gi : Int) (t : String) (d : Nat) (rest : List Char)
    (ts : List String) (ls : List (List String))
    (hsf : Workload.scanField t.data = some (false, d, rest)) (hrest : rest ≠ [])
    (hd : (d : Int) ≤ Workload.intMax) :
    Workload.extractInt gi ⟨(t :: ts) :: ls, false⟩ =
      ((d : Int), ⟨(rest.asString :: ts) :: ls, false⟩) := by
  unfold Workload.extractInt
  have hc : Workload.convInt d false = ((d : Int), true) := by
    simp [Workload.convInt, Int.not_lt.mpr hd]
  rcases rest with - | ⟨r, rs⟩
  · exact absurd rfl hrest
  · simp [Workload.nextTok, hsf, hc, Workload.pushRest]

theorem extractNat_prefix (gi : Nat) (t : String) (d : Nat) (rest : List Char)
    (ts : List String) (ls : List (List String))
    (hsf : Workload.scanField t.data = some (false, d, rest)) (hrest : rest ≠ [])
    (hd : d ≤ Workload.uintMax) :
    Workload.extractNat gi ⟨(t :: ts) :: ls, false⟩ =
      (d, ⟨(rest.asString :: ts) :: ls, false⟩) := by
  unfold Workload.extractNat
  have hc : Workload.convNat d false = (d, true) := by
    simp [Workload.convNat, Nat.not_lt.mpr hd]
  rcases rest with - | ⟨r, rs⟩
  · exact absurd rfl hrest
  · simp [Workload.nextTok, hsf, hc, Workload.pushRest]

theorem lab4_loadLoop_failed (gi gv : Int) (ls : List (List String)) :
    Lab4.loadLoop gi gv ⟨ls, true⟩ = [] := by
  rw [Lab4.loadLoop]
  simp [Workload.extractTok]

theorem demo_loadLoop_failed (gi : Nat) (gv : Int) (ls : List (List String)) :
    Demo.loadLoop gi gv ⟨ls, true⟩ = [] := by
  rw [Demo.loadLoop]
  simp [Workload.extractTok]

theorem lab4_skip_tok (gi gv : Int) (t : String) (ts : List String)
    (ls : List (List String))
    (h1 : t ≠ "read") (h2 : t ≠ "write") (h3 : t ≠ "string") :
    Lab4.loadLoop gi gv ⟨(t :: ts) :: ls, false⟩ =
      Lab4.loadLoop gi gv ⟨ts :: ls, false⟩ := by
  rw [Lab4.loadLoop]
  simp [Workload.extractTok, Workload.nextTok, h1, h2, h3]

theorem demo_skip_line (gi : Nat) (gv : Int) (t : String) (ts : List String)
    (ls : List (List String))
    (h1 : t ≠ "read") (h2 : t ≠ "write") (h3 : t ≠ "string") :
    Demo.loadLoop gi gv ⟨(t :: ts) :: ls, false⟩ =
      Demo.loadLoop gi gv ⟨ls, false⟩ := by
  rw [Demo.loadLoop]
  simp [Workload.extractTok, Workload.nextTok, Workload.dropLine, h1, h2, h3]

theorem lab4_read_eq (gi gv : Int) (n : String) (v : Int) (ts : List String)
    (ls : List (List String)) (hn : Workload.parseInt n = some v) :
    Lab4.loadLoop gi gv ⟨("read" :: n :: ts) :: ls, false⟩ =
      { type := Lab4.OpType.READ, idx := v, value := 0 } ::
        Lab4.loadLoop gi gv ⟨ts :: ls, false⟩ := by
  rw [Lab4.loadLoop]
  simp [Workload.extractTok, Workload.nextTok, extractInt_parse gi n v ts ls hn]

theorem demo_read_eq (gi : Nat) (gv : Int) (n : String) (v : Nat)
    (ts : List String) (ls : List (List String))
    (hn : Workload.parseNat n = some v) :
    Demo.loadLoop gi gv ⟨("read" :: n :: ts) :: ls, false⟩ =
      { type := Demo.OpType.READ, idx := v, value := 0 } ::
        Demo.loadLoop gi gv ⟨ts :: ls, false⟩ := by
  rw [Demo.loadLoop]
  simp [Workload.extractTok, Workload.nextTok, extractNat_parse gi n v ts ls hn]

theorem lab4_write_eq (gi gv : Int) (a b : String) (va vb : Int)
    (ts : List String) (ls : List (List String))
    (ha : Workload.parseInt a = some va) (hb : Workload.parseInt b = some vb) :
    Lab4.loadLoop gi gv ⟨("write" :: a :: b :: ts) :: ls, false⟩ =
      { type := Lab4.OpType.WRITE, idx := va, value := vb } ::
        Lab4.loadLoop gi gv ⟨ts :: ls, false⟩ := by
  rw [Lab4.loadLoop]
  simp [Workload.extractTok, Workload.nextTok,
    extractInt_parse gi a va (b :: ts) ls ha, extractInt_parse gv b vb ts ls hb]

theorem demo_write_eq (gi : Nat) (gv : Int) (a b : String) (va : Nat) (vb : Int)
    (ts : List String) (ls : List (List String))
    (ha : Workload.parseNat a = some va) (hb : Workload.parseInt b = some vb) :
    Demo.loadLoop gi gv ⟨("write" :: a :: b :: ts) :: ls, false⟩ =
      { type := Demo.OpType.WRITE, idx := va, value := vb } ::
        Demo.loadLoop gi gv ⟨ts :: ls, false⟩ := by
  rw [Demo.loadLoop]
  simp [Workload.extractTok, Workload.nextTok,
    extractNat_parse gi a va (b :: ts) ls ha, extractInt_parse gv b vb ts ls hb]

theorem lab4_string_eq (gi gv : Int) (ts : List String)
    (ls : List (List String)) :
    Lab4.loadLoop gi gv ⟨("string" :: ts) :: ls, false⟩ =
      { type := Lab4.OpType.STRING, idx := 0, value := 0 } ::
        Lab4.loadLoop gi gv ⟨ts :: ls, false⟩ := by
  rw [Lab4.loadLoop]
  simp [Workload.extractTok, Workload.nextTok]

theorem demo_string_eq (gi : Nat) (gv : Int) (ts : List String)
    (ls : List (List String)) :
    Demo.loadLoop gi gv ⟨("string" :: ts) :: ls, false⟩ =
      { type := Demo.OpType.STRING, idx := 0, value := 0 } ::
        Demo.loadLoop gi gv ⟨ts :: ls, false⟩ := by
  rw [Demo.loadLoop]
  simp [Workload.extractTok, Workload.nextTok]

theorem lab4_read_bad (gi gv : Int) (t : String) (ts : List String)
    (ls : List (List String)) (ht : Workload.scanField t.data = none) :
    Lab4.loadLoop gi gv ⟨("read" :: t :: ts) :: ls, false⟩ =
      [{ type := Lab4.OpType.READ, idx := 0, value := 0 }] := by
  rw [Lab4.loadLoop]
  simp [Workload.extractTok, Workload.nextTok,
    extractInt_nodigit gi t ts ls ht, lab4_loadLoop_failed]

theorem demo_read_bad (gi : Nat) (gv : Int) (t : String) (ts : List String)
    (ls : List (List String)) (ht : Workload.scanField t.data = none) :
    Demo.loadLoop gi gv ⟨("read" :: t :: ts) :: ls, false⟩ =
      [{ type := Demo.OpType.READ, idx := 0, value := 0 }] := by
  rw [Demo.loadLoop]
  simp [Workload.extractTok, Workload.nextTok,
    extractNat_nodigit gi t ts ls ht, demo_loadLoop_failed]

theorem lab4_write_bad (gi gv : Int) (t : String) (ts : List String)
    (ls : List (List String)) (ht : Workload.scanField t.data = none) :
    Lab4.loadLoop gi gv ⟨("write" :: t :: ts) :: ls, false⟩ =
      [{ type := Lab4.OpType.WRITE, idx := 0, value := gv }] := by
  rw [Lab4.loadLoop]
  have h2 : Workload.extractInt gv (⟨(t :: ts) :: ls, true⟩ : Workload.IStr) =
      (gv, ⟨(t :: ts) :: ls, true⟩) := by
    unfold Workload.extractInt
    simp
  simp [Workload.extractTok, Workload.nextTok,
    extractInt_nodigit gi t ts ls ht, h2, lab4_loadLoop_failed]

theorem demo_write_bad (gi : Nat) (gv : Int) (t : String) (ts : List String)
    (ls : List (List String)) (ht : Workload.scanField t.data = none) :
    Demo.loadLoop gi gv ⟨("write" :: t :: ts) :: ls, false⟩ =
      [{ type := Demo.OpType.WRITE, idx := 0, value := gv }] := by
  rw [Demo.loadLoop]
  have h2 : Workload.extractInt gv (⟨(t :: ts) :: ls, true⟩ : Workload.IStr) =
      (gv, ⟨(t :: ts) :: ls, true⟩) := by
    unfold Workload.extractInt
    simp
  simp [Workload.extractTok, Workload.nextTok,
    extractNat_nodigit gi t ts ls ht, h2, demo_loadLoop_failed]

theorem lab4_read_prefix (gi gv : Int) (t : String) (d : Nat) (rest : List Char)
    (ts : List String) (ls : List (List String))
    (hsf : Workload.scanField t.data = some (false, d, rest)) (hrest : rest ≠ [])
    (hd : (d : Int) ≤ Workload.intMax) :
    Lab4.loadLoop gi gv ⟨("read" :: t :: ts) :: ls, false⟩ =
      { type := Lab4.OpType.READ, idx := (d : Int), value := 0 } ::
        Lab4.loadLoop gi gv ⟨(rest.asString :: ts) :: ls, false⟩ := by
  rw [Lab4.loadLoop]
  simp [Workload.extractTok, Workload.nextTok,
    extractInt_prefix gi t d rest ts ls hsf hrest hd]

theorem demo_read_prefix (gi : Nat) (gv : Int) (t : String) (d : Nat)
    (rest : List Char) (ts : List String) (ls : List (List String))
    (hsf : Workload.scanField t.data = some (false, d, rest)) (hrest : rest ≠ [])
    (hd : d ≤ Workload.uintMax) :
    Demo.loadLoop gi gv ⟨("read" :: t :: ts) :: ls, false⟩ =
      { type := Demo.OpType.READ, idx := d, value := 0 } ::
        Demo.loadLoop gi gv ⟨(rest.asString :: ts) :: ls, false⟩ := by
  rw [Demo.loadLoop]
  simp [Workload.extractTok, Workload.nextTok,
    extractNat_prefix gi t d rest ts ls hsf hrest hd]

/-! ## Executor lemmas -/

theorem worker_spec (s : Lab4.MultiField) (ops : List Lab4.Op) :
    (Lab4.worker s ops).2.map Event.call = ops.map Lab4.opCall ∧
    (Lab4.worker s ops).1 = ops.foldl lab4Step s := by
  induction ops generalizing s with
  | nil => exact ⟨rfl, rfl⟩
  | cons op rest ih =>
      cases hop : op.type with
      | READ =>
          obtain ⟨ih1, ih2⟩ := ih s
          rcases hw : Lab4.worker s rest with ⟨d', es⟩
          rw [hw] at ih1 ih2
          simp only [Lab4.worker, hop, hw]
          refine ⟨?_, ?_⟩
          · simp only [List.map_cons, Event.call, Lab4.opCall, hop]
            rw [ih1]
          · simp only [List.foldl_cons, lab4Step, hop]
            exact ih2
      | WRITE =>
          obtain ⟨ih1, ih2⟩ := ih (s.write (Lab4.usize op.idx) op.value)
          rcases hw : Lab4.worker (s.write (Lab4.usize op.idx) op.value) rest with ⟨d', es⟩
          rw [hw] at ih1 ih2
          simp only [Lab4.worker, hop, hw]
          refine ⟨?_, ?_⟩
          · simp only [List.map_cons, Event.call, Lab4.opCall, hop]
            rw [ih1]
          · simp only [List.foldl_cons, lab4Step, hop]
            exact ih2
      | STRING =>
          obtain ⟨ih1, ih2⟩ := ih s
          rcases hw : Lab4.worker s rest with ⟨d', es⟩
          rw [hw] at ih1 ih2
          simp only [Lab4.worker, hop, hw]
          refine ⟨?_, ?_⟩
          · simp only [List.map_cons, Event.call, Lab4.opCall, hop]
            rw [ih1]
          · simp only [List.foldl_cons, lab4Step, hop]
            exact ih2

theorem execute_ops_spec (s : Demo.MultiField) (ops : List Demo.Op) :
    (Demo.execute_ops s ops).2.map Event.call = ops.map Demo.opCall ∧
    (Demo.execute_ops s ops).1 = ops.foldl demoStep s := by
  induction ops generalizing s with
  | nil => exact ⟨rfl, rfl⟩
  | cons op rest ih =>
      cases hop : op.type with
      | READ =>
          obtain ⟨ih1, ih2⟩ := ih s
          rcases hw : Demo.execute_ops s rest with ⟨d', es⟩
          rw [hw] at ih1 ih2
          simp only [Demo.execute_ops, hop, hw]
          refine ⟨?_, ?_⟩
          · simp only [List.map_cons, Event.call, Demo.opCall, hop]
            rw [ih1]
          · simp only [List.foldl_cons, demoStep, hop]
            exact ih2
      | WRITE =>
          obtain ⟨ih1, ih2⟩ := ih (s.write op.idx op.value)
          rcases hw : Demo.execute_ops (s.write op.idx op.value) rest with ⟨d', es⟩
          rw [hw] at ih1 ih2
          simp only [Demo.execute_ops, hop, hw]
          refine ⟨?_, ?_⟩
          · simp only [List.map_cons, Event.call, Demo.opCall, hop]
            rw [ih1]
          · simp only [List.foldl_cons, demoStep, hop]
            exact ih2
      | STRING =>
          obtain ⟨ih1, ih2⟩ := ih s
          rcases hw : Demo.execute_ops s rest with ⟨d', es⟩
          rw [hw] at ih1 ih2
          simp only [Demo.execute_ops, hop, hw]
          refine ⟨?_, ?_⟩
          · simp only [List.map_cons, Event.call, Demo.opCall, hop]
            rw [ih1]
          · simp only [List.foldl_cons, demoStep, hop]
            exact ih2

/-! ## Claim theorems -/

/-- C1: for every store of size `M`, the snapshot (`to_string`)
shared-acquires every one of the `M` guards in ascending index order
(guard 0 first, guard `M-1` last), holds all `M` simultaneously at
every field read it performs, and releases them all before returning;
the single-field `read`/`write` traces never hold more than one guard
at any point, so snapshot is the only operation holding more than one
field lock at a time. -/
theorem c1_snapshot_lock_protocol (M : Nat) :
    ((Locks.compile M .snap).filterMap Locks.acqOf =
      (List.range M).map (fun i => (i, Locks.LMode.shared))) ∧
    (∀ p i q, Locks.compile M .snap = p ++ Locks.LAct.rd i :: q →
      (Locks.heldAfter [] p).map Prod.fst = List.range M) ∧
    Locks.heldAfter [] (Locks.compile M .snap) = [] ∧
    (∀ op, op ≠ Locks.LOp.snap → ∀ p q, Locks.compile M op = p ++ q →
      (Locks.heldAfter [] p).length ≤ 1) := by
  refine ⟨?_, ?_, Locks.snap_held_final M, ?_⟩
  · show ((((List.range M).map (fun i => Locks.LAct.acq i .shared)) ++
      ((List.range M).map Locks.LAct.rd) ++
      ((List.range M).map Locks.LAct.rel))).filterMap Locks.acqOf = _
    rw [List.filterMap_append, List.filterMap_append,
      Locks.filterMap_acqOf_acqs, Locks.filterMap_acqOf_rds,
      Locks.filterMap_acqOf_rels]
    simp
  · intro p i q h
    exact Locks.snap_held_at_rd M h
  · intro op hop p q h
    exact Locks.single_field_one_lock M op hop h

/-- Witness for C1: the prefix of the `M = 2` snapshot trace ending at
the read of field 0 holds both guards. -/
theorem c1_witness :
    (Locks.heldAfter [] [Locks.LAct.acq 0 .shared, Locks.LAct.acq 1 .shared]).map
      Prod.fst = List.range 2 :=
  (c1_snapshot_lock_protocol 2).2.1
    [Locks.LAct.acq 0 .shared, Locks.LAct.acq 1 .shared] 0
    [Locks.LAct.rd 1, Locks.LAct.rel 0, Locks.LAct.rel 1] (by decide)

/-- C2: deadlock freedom.  From the driver's launch state (any number
of worker streams mixing reads, writes and snapshots over a store of
any size `M`), every reachable state is either fully finished or has an
enabled step (no deadlock), and every step strictly decreases the
remaining-work measure, so every maximal execution is finite and ends
with all calls completed. -/
theorem c2_deadlock_freedom (M : Nat) (streams : List (List Locks.LOp))
    (ts : List Locks.Thread)
    (hreach : Relation.ReflTransGen (Locks.Step M) (Locks.initThreads streams) ts) :
    (Locks.AllDone ts ∨ ∃ ts', Locks.Step M ts ts') ∧
    (∀ ts', Locks.Step M ts ts' → Locks.sysMeasure M ts' < Locks.sysMeasure M ts) := by
  have hinv := Locks.reach_inv hreach
  constructor
  · by_cases hd : Locks.AllDone ts
    · exact Or.inl hd
    · exact Or.inr (Locks.progress hinv hd)
  · intro ts' hs
    exact Locks.step_measure hs

/-- Witness for C2: two workers (one snapshot stream, one read stream)
on a 2-field store, at the launch state itself. -/
theorem c2_witness :
    (Locks.AllDone (Locks.initThreads [[Locks.LOp.snap], [Locks.LOp.read 0]]) ∨
      ∃ ts', Locks.Step 2 (Locks.initThreads [[Locks.LOp.snap], [Locks.LOp.read 0]]) ts') ∧
    (∀ ts', Locks.Step 2 (Locks.initThreads [[Locks.LOp.snap], [Locks.LOp.read 0]]) ts' →
      Locks.sysMeasure 2 ts' <
        Locks.sysMeasure 2 (Locks.initThreads [[Locks.LOp.snap], [Locks.LOp.read 0]])) :=
  c2_deadlock_freedom 2 [[Locks.LOp.snap], [Locks.LOp.read 0]] _
    Relation.ReflTransGen.refl

/-- C3: out-of-range accesses are defined no-ops in both sources:
`read i` with `i ≥ M` returns 0 and its lock trace is empty (no lock
acquired; `read` is `const`, so the store is untouched by construction),
and `write i v` with `i ≥ M` returns the store unchanged with an empty
lock trace. -/
theorem c3_out_of_range_noop (s : Lab4.MultiField) (t : Demo.MultiField)
    (i j : Nat) (v w : Int) (hi : s.vals.length ≤ i) (hj : t.vals.length ≤ j) :
    s.read i = 0 ∧ s.write i v = s ∧
    Locks.compile s.vals.length (.read i) = [] ∧
    Locks.compile s.vals.length (.write i) = [] ∧
    t.read j = 0 ∧ t.write j w = t ∧
    Locks.compile t.vals.length (.read j) = [] ∧
    Locks.compile t.vals.length (.write j) = [] := by
  refine ⟨?_, ?_, ?_, ?_, ?_, ?_, ?_, ?_⟩ <;>
    simp [Lab4.MultiField.read, Lab4.MultiField.write, Demo.MultiField.read,
      Demo.MultiField.write, Locks.compile, hi, hj, Nat.not_lt.mpr hi,
      Nat.not_lt.mpr hj]

/-- Witness for C3: a 2-field store with indices 5 and 7. -/
theorem c3_witness :
    (Lab4.MultiField.mk0 2).read 5 = 0 ∧
    (Lab4.MultiField.mk0 2).write 5 1 = Lab4.MultiField.mk0 2 ∧
    Locks.compile (Lab4.MultiField.mk0 2).vals.length (.read 5) = [] ∧
    Locks.compile (Lab4.MultiField.mk0 2).vals.length (.write 5) = [] ∧
    (Demo.MultiField.mk' 2 0).read 7 = 0 ∧
    (Demo.MultiField.mk' 2 0).write 7 2 = Demo.MultiField.mk' 2 0 ∧
    Locks.compile (Demo.MultiField.mk' 2 0).vals.length (.read 7) = [] ∧
    Locks.compile (Demo.MultiField.mk' 2 0).vals.length (.write 7) = [] :=
  c3_out_of_range_noop (Lab4.MultiField.mk0 2) (Demo.MultiField.mk' 2 0)
    5 7 1 2 (by decide) (by decide)

/-- C4: the snapshot string is a single line (contains no newline)
consisting of a bracket pair enclosing the field values in ascending
index order separated by comma-and-space; demo_lab4.cpp uses square
brackets (matching the spec's example `[3, 0, 17, 0]` exactly),
lab4.cpp curly braces. -/
theorem c4_snapshot_format (s : Lab4.MultiField) (t : Demo.MultiField) :
    s.to_string = "\x7b" ++ String.intercalate ", " (s.vals.map toString) ++ "\x7d" ∧
    t.to_string = "[" ++ String.intercalate ", " (t.vals.map toString) ++ "]" ∧
    (∀ c ∈ s.to_string.data, c ≠ '\n') ∧
    (∀ c ∈ t.to_string.data, c ≠ '\n') ∧
    Demo.MultiField.to_string ⟨[3, 0, 17, 0]⟩ = "[3, 0, 17, 0]" := by
  refine ⟨?_, ?_, ?_, ?_, ?_⟩
  · show "\x7b" ++ Lab4.renderLoop s.vals ++ "\x7d" = _
    rw [renderLoop_eq]
  · show "[" ++ Lab4.renderLoop t.vals ++ "]" = _
    rw [renderLoop_eq]
  · show ∀ c ∈ ("\x7b" ++ Lab4.renderLoop s.vals ++ "\x7d").data, c ≠ '\n'
    intro c hc
    rw [String.data_append, String.data_append] at hc
    rcases List.mem_append.mp hc with h1 | h2
    · rcases List.mem_append.mp h1 with h3 | h4
      · have : c = '\x7b' := by simpa using h3
        rw [this]; decide
      · exact renderLoop_ne_newline s.vals c h4
    · have : c = '\x7d' := by simpa using h2
      rw [this]; decide
  · show ∀ c ∈ ("[" ++ Lab4.renderLoop t.vals ++ "]").data, c ≠ '\n'
    intro c hc
    rw [String.data_append, String.data_append] at hc
    rcases List.mem_append.mp hc with h1 | h2
    · rcases List.mem_append.mp h1 with h3 | h4
      · have : c = '[' := by simpa using h3
        rw [this]; decide
      · exact renderLoop_ne_newline t.vals c h4
    · have : c = ']' := by simpa using h2
      rw [this]; decide
  · decide

/-- Witness for C4: the opening brace of a lab4 snapshot string is not
a newline. -/
theorem c4_witness : ('\x7b' : Char) ≠ '\n' :=
  (c4_snapshot_format ⟨[3]⟩ ⟨[3]⟩).2.2.1 '\x7b' (by decide)

/-- C5: an in-range `write(i, v)` stores `v` into field `i` and leaves
every other field and the store's size unchanged (both sources). -/
theorem c5_write_frame (s : Lab4.MultiField) (t : Demo.MultiField)
    (i j : Nat) (v w : Int) (hi : i < s.vals.length) (hj : j < t.vals.length) :
    (s.write i v).vals.getD i 0 = v ∧
    (∀ k, k ≠ i → (s.write i v).vals.getD k 0 = s.vals.getD k 0) ∧
    (s.write i v).vals.length = s.vals.length ∧
    (t.write j w).vals.getD j 0 = w ∧
    (∀ k, k ≠ j → (t.write j w).vals.getD k 0 = t.vals.getD k 0) ∧
    (t.write j w).vals.length = t.vals.length := by
  have hsi : ¬ (s.vals.length ≤ i) := Nat.not_le.mpr hi
  have htj : ¬ (t.vals.length ≤ j) := Nat.not_le.mpr hj
  refine ⟨?_, ?_, ?_, ?_, ?_, ?_⟩
  · simp [Lab4.MultiField.write, hsi, hi]
  · intro k hk
    simp [Lab4.MultiField.write, hsi, List.getElem?_set_ne (fun he => hk he.symm)]
  · simp [Lab4.MultiField.write, hsi]
  · simp [Demo.MultiField.write, htj, hj]
  · intro k hk
    simp [Demo.MultiField.write, htj, List.getElem?_set_ne (fun he => hk he.symm)]
  · simp [Demo.MultiField.write, htj]

/-- Witness for C5: writing 9 at index 1 of a 3-field store. -/
theorem c5_witness :
    ((Lab4.MultiField.mk0 3).write 1 9).vals.getD 1 0 = 9 ∧
    (∀ k, k ≠ 1 → ((Lab4.MultiField.mk0 3).write 1 9).vals.getD k 0 =
      (Lab4.MultiField.mk0 3).vals.getD k 0) ∧
    ((Lab4.MultiField.mk0 3).write 1 9).vals.length =
      (Lab4.MultiField.mk0 3).vals.length ∧
    ((Demo.MultiField.mk' 3 0).write 2 4).vals.getD 2 0 = 4 ∧
    (∀ k, k ≠ 2 → ((Demo.MultiField.mk' 3 0).write 2 4).vals.getD k 0 =
      (Demo.MultiField.mk' 3 0).vals.getD k 0) ∧
    ((Demo.MultiField.mk' 3 0).write 2 4).vals.length =
      (Demo.MultiField.mk' 3 0).vals.length :=
  c5_write_frame (Lab4.MultiField.mk0 3) (Demo.MultiField.mk' 3 0)
    1 2 9 4 (by decide) (by decide)

/-- C6: both executors dispatch exactly one store call per operation,
in stream order — `READ` becomes `store.read` (value discarded),
`WRITE` becomes `store.write`, `STRING` becomes the snapshot
stringification (string discarded) — and their net effect on the store
is exactly the sequential application of the writes: reads and
snapshots leave the store unchanged.  The executor returns (the
recursion terminates) with the full call trace recorded, so every call
has returned when it does. -/
theorem c6_executor_dispatch (s : Lab4.MultiField) (ops : List Lab4.Op)
    (t : Demo.MultiField) (qs : List Demo.Op) :
    (Lab4.worker s ops).2.map Event.call = ops.map Lab4.opCall ∧
    (Lab4.worker s ops).1 = ops.foldl lab4Step s ∧
    (Demo.execute_ops t qs).2.map Event.call = qs.map Demo.opCall ∧
    (Demo.execute_ops t qs).1 = qs.foldl demoStep t :=
  ⟨(worker_spec s ops).1, (worker_spec s ops).2,
    (execute_ops_spec t qs).1, (execute_ops_spec t qs).2⟩

/-- C7: on a store whose index 0 is in range, the single stream
`[Write(0,5), Read(0)]` run alone makes the read return 5. -/
theorem c7_stream_order (M : Nat) (hM : 0 < M) :
    (Lab4.worker (Lab4.MultiField.mk0 M)
      [{ type := .WRITE, idx := 0, value := 5 },
       { type := .READ, idx := 0, value := 0 }]).2 =
      [Event.write 0 5, Event.read 0 5] := by
  have husize : Lab4.usize 0 = 0 := by decide
  have hlen : (Lab4.MultiField.mk0 M).vals.length = M := by
    simp [Lab4.MultiField.mk0]
  have hwrite : (Lab4.MultiField.mk0 M).write 0 5 =
      ⟨(List.replicate M (0 : Int)).set 0 5⟩ := by
    simp [Lab4.MultiField.write, Lab4.MultiField.mk0, Nat.not_le.mpr hM]
  have hread : ((Lab4.MultiField.mk0 M).write 0 5).read 0 = 5 := by
    rw [hwrite]
    have hM0 : M ≠ 0 := by omega
    have hset : ((List.replicate M (0 : Int)).set 0 5)[0]? = some 5 :=
      List.getElem?_set_self (by simpa using hM)
    simp [Lab4.MultiField.read, hM0, hset]
  simp only [Lab4.worker, husize, hread]

/-- Witness for C7 at `M = 1`. -/
theorem c7_witness :
    0 < 1 ∧
    (Lab4.worker (Lab4.MultiField.mk0 1)
      [{ type := .WRITE, idx := 0, value := 5 },
       { type := .READ, idx := 0, value := 0 }]).2 =
      [Event.write 0 5, Event.read 0 5] :=
  ⟨by decide, c7_stream_order 1 (by decide)⟩

/-- C8 counterexample: the claim says an unrecognized command token
makes the loader skip the token *and discard the rest of its line*.
On the single line `junk write 2 7` that requires loading zero ops;
`load_ops` (lab4.cpp) has no line-discarding branch — it continues
with the next token of the same line and loads `Write(2, 7)`.  (The
indeterminate contents of the uninitialized locals are instantiated
to 0; they are never stored into on this input.) -/
theorem c8_counterexample :
    Lab4.load_ops true 0 0 [["junk", "write", "2", "7"]] =
      [{ type := Lab4.OpType.WRITE, idx := 2, value := 7 }] ∧
    Lab4.load_ops true 0 0 [["junk", "write", "2", "7"]] ≠ [] := by
  have h : Lab4.load_ops true 0 0 [["junk", "write", "2", "7"]] =
      [{ type := Lab4.OpType.WRITE, idx := 2, value := 7 }] := by
    show Lab4.loadLoop 0 0 ⟨[["junk", "write", "2", "7"]], false⟩ = _
    rw [lab4_skip_tok 0 0 "junk" _ _ (by decide) (by decide) (by decide),
      lab4_write_eq 0 0 "2" "7" 2 7 [] [] (by decide) (by decide)]
    rw [Lab4.loadLoop]
    simp [Workload.extractTok, Workload.nextTok]
  exact ⟨h, by rw [h]; simp⟩

/-- C8 amended: both loaders map `read <i>` / `write <i> <v>` /
`string` to exactly one `Read`/`Write`/`Snapshot` op; on an
unrecognized command token, `load_ops_from_file` (demo_lab4.cpp)
discards the rest of the line and continues with the next line, while
`load_ops` (lab4.cpp) skips only the token itself and continues with
the very next token, which may be on the same line.  The
`parseInt`/`parseNat` hypotheses confine the mapping equations to
numeric tokens that `operator>>` extracts wholly and without
`failbit`; `gi`/`gv`/`dgi`/`dgv` are the (irrelevant here)
indeterminate contents of the loaders' uninitialized locals. -/
theorem c8_amended_loader (gi gv : Int) (dgi : Nat) (dgv : Int)
    (t n b : String) (ts : List String)
    (ls : List (List String)) (vi vb : Int) (vn : Nat)
    (h1 : t ≠ "read") (h2 : t ≠ "write") (h3 : t ≠ "string")
    (hvi : Workload.parseInt n = some vi) (hvn : Workload.parseNat n = some vn)
    (hvb : Workload.parseInt b = some vb) :
    Lab4.loadLoop gi gv ⟨(t :: ts) :: ls, false⟩ =
      Lab4.loadLoop gi gv ⟨ts :: ls, false⟩ ∧
    Demo.loadLoop dgi dgv ⟨(t :: ts) :: ls, false⟩ =
      Demo.loadLoop dgi dgv ⟨ls, false⟩ ∧
    Lab4.loadLoop gi gv ⟨("read" :: n :: ts) :: ls, false⟩ =
      { type := Lab4.OpType.READ, idx := vi, value := 0 } ::
        Lab4.loadLoop gi gv ⟨ts :: ls, false⟩ ∧
    Demo.loadLoop dgi dgv ⟨("read" :: n :: ts) :: ls, false⟩ =
      { type := Demo.OpType.READ, idx := vn, value := 0 } ::
        Demo.loadLoop dgi dgv ⟨ts :: ls, false⟩ ∧
    Lab4.loadLoop gi gv ⟨("write" :: n :: b :: ts) :: ls, false⟩ =
      { type := Lab4.OpType.WRITE, idx := vi, value := vb } ::
        Lab4.loadLoop gi gv ⟨ts :: ls, false⟩ ∧
    Demo.loadLoop dgi dgv ⟨("write" :: n :: b :: ts) :: ls, false⟩ =
      { type := Demo.OpType.WRITE, idx := vn, value := vb } ::
        Demo.loadLoop dgi dgv ⟨ts :: ls, false⟩ ∧
    Lab4.loadLoop gi gv ⟨("string" :: ts) :: ls, false⟩ =
      { type := Lab4.OpType.STRING, idx := 0, value := 0 } ::
        Lab4.loadLoop gi gv ⟨ts :: ls, false⟩ ∧
    Demo.loadLoop dgi dgv ⟨("string" :: ts) :: ls, false⟩ =
      { type := Demo.OpType.STRING, idx := 0, value := 0 } ::
        Demo.loadLoop dgi dgv ⟨ts :: ls, false⟩ :=
  ⟨lab4_skip_tok gi gv t ts ls h1 h2 h3,
    demo_skip_line dgi dgv t ts ls h1 h2 h3,
    lab4_read_eq gi gv n vi ts ls hvi,
    demo_read_eq dgi dgv n vn ts ls hvn,
    lab4_write_eq gi gv n b vi vb ts ls hvi hvb,
    demo_write_eq dgi dgv n b vn vb ts ls hvn hvb,
    lab4_string_eq gi gv ts ls,
    demo_string_eq dgi dgv ts ls⟩

/-- Witness for C8 (amended) with token `junk`, numerals `3` and `7`,
and all indeterminate locals instantiated to 0. -/
theorem c8_witness :
    Lab4.loadLoop 0 0 ⟨["junk", "x"] :: [["y"]], false⟩ =
      Lab4.loadLoop 0 0 ⟨["x"] :: [["y"]], false⟩ ∧
    Demo.loadLoop 0 0 ⟨["junk", "x"] :: [["y"]], false⟩ =
      Demo.loadLoop 0 0 ⟨[["y"]], false⟩ ∧
    Lab4.loadLoop 0 0 ⟨("read" :: "3" :: ["x"]) :: [["y"]], false⟩ =
      { type := Lab4.OpType.READ, idx := 3, value := 0 } ::
        Lab4.loadLoop 0 0 ⟨["x"] :: [["y"]], false⟩ ∧
    Demo.loadLoop 0 0 ⟨("read" :: "3" :: ["x"]) :: [["y"]], false⟩ =
      { type := Demo.OpType.READ, idx := 3, value := 0 } ::
        Demo.loadLoop 0 0 ⟨["x"] :: [["y"]], false⟩ ∧
    Lab4.loadLoop 0 0 ⟨("write" :: "3" :: "7" :: ["x"]) :: [["y"]], false⟩ =
      { type := Lab4.OpType.WRITE, idx := 3, value := 7 } ::
        Lab4.loadLoop 0 0 ⟨["x"] :: [["y"]], false⟩ ∧
    Demo.loadLoop 0 0 ⟨("write" :: "3" :: "7" :: ["x"]) :: [["y"]], false⟩ =
      { type := Demo.OpType.WRITE, idx := 3, value := 7 } ::
        Demo.loadLoop 0 0 ⟨["x"] :: [["y"]], false⟩ ∧
    Lab4.loadLoop 0 0 ⟨("string" :: ["x"]) :: [["y"]], false⟩ =
      { type := Lab4.OpType.STRING, idx := 0, value := 0 } ::
        Lab4.loadLoop 0 0 ⟨["x"] :: [["y"]], false⟩ ∧
    Demo.loadLoop 0 0 ⟨("string" :: ["x"]) :: [["y"]], false⟩ =
      { type := Demo.OpType.STRING, idx := 0, value := 0 } ::
        Demo.loadLoop 0 0 ⟨["x"] :: [["y"]], false⟩ :=
  c8_amended_loader 0 0 0 0 "junk" "3" "7" ["x"] [["y"]] 3 7 3
    (by decide) (by decide) (by decide) (by decide) (by decide) (by decide)

/-- C9 counterexample: on the stream `write x 7` / `read 1`, the claim
requires the malformed first line to be skipped and `Read(1)` loaded.
`load_ops_from_file` (demo_lab4.cpp) instead fails the conversion at
`x` (num_get stores 0 into `idx`, sets `failbit`; the subsequent
`>> val` fails its sentry and stores nothing, so `val` keeps the
indeterminate contents of the uninitialized local — instantiated to 0
here), still appends the `Write` op, and — `failbit` being set —
stops, dropping the well-formed `read 1` line: a command with a
non-numeric argument truncates the rest of the stream. -/
theorem c9_counterexample :
    Demo.load_ops_from_file true 0 0 [["write", "x", "7"], ["read", "1"]] =
      [{ type := Demo.OpType.WRITE, idx := 0, value := 0 }] ∧
    ({ type := Demo.OpType.READ, idx := 1, value := 0 } : Demo.Op) ∉
      Demo.load_ops_from_file true 0 0 [["write", "x", "7"], ["read", "1"]] := by
  have h : Demo.load_ops_from_file true 0 0 [["write", "x", "7"], ["read", "1"]] =
      [{ type := Demo.OpType.WRITE, idx := 0, value := 0 }] := by
    show Demo.loadLoop 0 0 ⟨[["write", "x", "7"], ["read", "1"]], false⟩ = _
    exact demo_write_bad 0 0 "x" ["7"] [["read", "1"]] (by decide)
  refine ⟨h, ?_⟩
  rw [h]
  simp

/-- C9 amended: an unrecognized command token is skipped without
aborting and loading continues (see C8); but a recognized command
whose numeric argument token has **no extractable numeral** (it does
not start with `sign? digit`) sets the stream's fail state: num_get
stores 0 into that argument, a second argument of the same command
keeps the indeterminate contents of its uninitialized local, the op
is still appended, and loading of the remainder of the stream stops,
in both loaders.  A token with an extractable numeric prefix (such as
`2x`) is *not* malformed: `operator>>` extracts the prefix, the
remainder stays in the stream, and loading continues.  A
missing/unopenable workload file yields the empty op vector. -/
theorem c9_amended_loader (gi gv : Int) (dgi : Nat) (dgv : Int)
    (t u : String) (d : Nat) (urest : List Char) (ts : List String)
    (ls input : List (List String))
    (ht : Workload.scanField t.data = none)
    (hu : Workload.scanField u.data = some (false, d, urest))
    (hur : urest ≠ [])
    (hdi : (d : Int) ≤ Workload.intMax)
    (hdn : d ≤ Workload.uintMax) :
    Lab4.loadLoop gi gv ⟨("read" :: t :: ts) :: ls, false⟩ =
      [{ type := Lab4.OpType.READ, idx := 0, value := 0 }] ∧
    Demo.loadLoop dgi dgv ⟨("read" :: t :: ts) :: ls, false⟩ =
      [{ type := Demo.OpType.READ, idx := 0, value := 0 }] ∧
    Lab4.loadLoop gi gv ⟨("write" :: t :: ts) :: ls, false⟩ =
      [{ type := Lab4.OpType.WRITE, idx := 0, value := gv }] ∧
    Demo.loadLoop dgi dgv ⟨("write" :: t :: ts) :: ls, false⟩ =
      [{ type := Demo.OpType.WRITE, idx := 0, value := dgv }] ∧
    Lab4.loadLoop gi gv ⟨("read" :: u :: ts) :: ls, false⟩ =
      { type := Lab4.OpType.READ, idx := (d : Int), value := 0 } ::
        Lab4.loadLoop gi gv ⟨(urest.asString :: ts) :: ls, false⟩ ∧
    Demo.loadLoop dgi dgv ⟨("read" :: u :: ts) :: ls, false⟩ =
      { type := Demo.OpType.READ, idx := d, value := 0 } ::
        Demo.loadLoop dgi dgv ⟨(urest.asString :: ts) :: ls, false⟩ ∧
    Lab4.load_ops false gi gv input = [] ∧
    Demo.load_ops_from_file false dgi dgv input = [] :=
  ⟨lab4_read_bad gi gv t ts ls ht,
    demo_read_bad dgi dgv t ts ls ht,
    lab4_write_bad gi gv t ts ls ht,
    demo_write_bad dgi dgv t ts ls ht,
    lab4_read_prefix gi gv u d urest ts ls hu hur hdi,
    demo_read_prefix dgi dgv u d urest ts ls hu hur hdn,
    rfl, rfl⟩

/-- Witness for C9 (amended) with non-numeric token `x`, prefix token
`2x`, and the indeterminate locals instantiated to 6 (whose survival
in the `Write` ops exhibits the stored-nothing semantics). -/
theorem c9_witness :
    Lab4.loadLoop 6 6 ⟨("read" :: "x" :: ["7"]) :: [["read", "1"]], false⟩ =
      [{ type := Lab4.OpType.READ, idx := 0, value := 0 }] ∧
    Demo.loadLoop 6 6 ⟨("read" :: "x" :: ["7"]) :: [["read", "1"]], false⟩ =
      [{ type := Demo.OpType.READ, idx := 0, value := 0 }] ∧
    Lab4.loadLoop 6 6 ⟨("write" :: "x" :: ["7"]) :: [["read", "1"]], false⟩ =
      [{ type := Lab4.OpType.WRITE, idx := 0, value := 6 }] ∧
    Demo.loadLoop 6 6 ⟨("write" :: "x" :: ["7"]) :: [["read", "1"]], false⟩ =
      [{ type := Demo.OpType.WRITE, idx := 0, value := 6 }] ∧
    Lab4.loadLoop 6 6 ⟨("read" :: "2x" :: ["7"]) :: [["read", "1"]], false⟩ =
      { type := Lab4.OpType.READ, idx := 2, value := 0 } ::
        Lab4.loadLoop 6 6 ⟨("x" :: ["7"]) :: [["read", "1"]], false⟩ ∧
    Demo.loadLoop 6 6 ⟨("read" :: "2x" :: ["7"]) :: [["read", "1"]], false⟩ =
      { type := Demo.OpType.READ, idx := 2, value := 0 } ::
        Demo.loadLoop 6 6 ⟨("x" :: ["7"]) :: [["read", "1"]], false⟩ ∧
    Lab4.load_ops false 6 6 [["read", "1"]] = [] ∧
    Demo.load_ops_from_file false 6 6 [["read", "1"]] = [] :=
  c9_amended_loader 6 6 6 6 "x" "2x" 2 ['x'] ["7"] [["read", "1"]]
    [["read", "1"]] (by decide) (by decide) (by decide) (by decide) (by decide)

/-- C10: a demo store built with size `m` and nonzero initial value
`v0` returns `v0` from every in-range never-written index and 0 from
every out-of-range index, so the out-of-range default differs from the
value of an untouched in-range field. -/
theorem c10_init_vs_default (m : Nat) (v0 : Int) (i j : Nat)
    (hi : i < m) (hj : m ≤ j) (hv : v0 ≠ 0) :
    (Demo.MultiField.mk' m v0).read i = v0 ∧
    (Demo.MultiField.mk' m v0).read j = 0 ∧
    (Demo.MultiField.mk' m v0).read i ≠ (Demo.MultiField.mk' m v0).read j := by
  have h1 : (Demo.MultiField.mk' m v0).read i = v0 := by
    simp [Demo.MultiField.mk', Demo.MultiField.read, Nat.not_le.mpr hi, hi]
  have h2 : (Demo.MultiField.mk' m v0).read j = 0 := by
    simp [Demo.MultiField.mk', Demo.MultiField.read, hj]
  refine ⟨h1, h2, ?_⟩
  rw [h1, h2]
  exact hv

/-- Witness for C10: size 2, initial value 7, indices 0 and 5. -/
theorem c10_witness :
    (0 < 2 ∧ 2 ≤ 5 ∧ (7 : Int) ≠ 0) ∧
    (Demo.MultiField.mk' 2 7).read 0 = 7 ∧
    (Demo.MultiField.mk' 2 7).read 5 = 0 ∧
    (Demo.MultiField.mk' 2 7).read 0 ≠ (Demo.MultiField.mk' 2 7).read 5 :=
  ⟨⟨by decide, by decide, by decide⟩,
    c10_init_vs_default 2 7 0 5 (by decide) (by decide) (by decide)⟩
